import Mathlib

/-!
Verification of the RTEmsg trace decoder against its specification.

Each section embeds one part of the C source as executable Lean definitions
(shallow embedding: machine integers become Nat/Int with explicit reductions
modulo 2^32 or 2^64 where overflow can occur, global mutable state becomes
explicit state records, fallible code returns Option) and proves the claimed
properties about them.
-/

namespace RTEmsg

/-! ## Format-ID allocator (format.c, assign_fmt_id)

The allocator state mirrors the globals used by assign_fmt_id:
g_fmt[] (array of plan pointers, NULL = free slot), g_msg.fmt_align_value,
g_msg.fmt_ids_defined and g_msg.hdr_data.topmost_fmt_id.  A plan pointer is
modelled as a Nat tag; a free slot is none. -/

structure FmtState where
  fmt : Nat → Option Nat
  fmt_align_value : Nat
  fmt_ids_defined : Nat
  topmost_fmt_id : Nat

/-- First loop of assign_fmt_id: advance the cursor past filled slots,
stopping at the first free slot or at topmost.  fuel is the number of
remaining loop iterations (topmost - cursor at the call site). -/
def advance_align (fmt : Nat → Option Nat) : Nat → Nat → Nat
  | 0, c => c
  | fuel + 1, c => if fmt c = none then c else advance_align fmt fuel (c + 1)

/-- Inner loop of assign_fmt_id: all of g_fmt[id .. id+k-1] are NULL.
(The outer g_fmt[fmt_id] == NULL test is the i = 0 instance.) -/
def range_free (fmt : Nat → Option Nat) (id k : Nat) : Bool :=
  (List.range k).all fun i => (fmt (id + i)).isNone

/-- Outer search loop of assign_fmt_id: step by no_fmt_ids from the aligned
candidate until a fully free range is found or the id reaches topmost. -/
def search_fmt_id (fmt : Nat → Option Nat) (topmost k : Nat) : Nat → Nat → Option Nat
  | 0, _ => none
  | fuel + 1, id =>
    if id < topmost then
      if range_free fmt id k then some id
      else search_fmt_id fmt topmost k fuel (id + k)
    else none

/-- The C alignment expression (fmt_id + no_fmt_ids - 1u) & (~(no_fmt_ids - 1u))
on 32-bit unsigneds. -/
def fmt_align_expr (fmt_id no_fmt_ids : Nat) : Nat :=
  ((fmt_id + no_fmt_ids - 1) % 2 ^ 32) &&& ((2 ^ 32 - 1) - (no_fmt_ids - 1))

/-- Tail of assign_fmt_id after the range search: on a found range the code
checks fmt_id + no_fmt_ids < topmost (and no_fmt_ids < topmost), raises
fmt_ids_defined to the new limit when larger, and writes the plan pointer into
every slot of the range; otherwise it returns the 0xFFFFFFFF error (none). -/
def assign_fmt_id_found (no_fmt_ids p_msg_data : Nat) (s1 : FmtState) :
    Option Nat → Option Nat × FmtState
  | none => (none, s1)
  | some fmt_id =>
    if fmt_id + no_fmt_ids < s1.topmost_fmt_id ∧
        no_fmt_ids < s1.topmost_fmt_id then
      (some fmt_id,
        { s1 with
          fmt_ids_defined := if fmt_id + no_fmt_ids > s1.fmt_ids_defined then
            fmt_id + no_fmt_ids else s1.fmt_ids_defined,
          fmt := fun m => if fmt_id ≤ m ∧ m < fmt_id + no_fmt_ids then
            some p_msg_data else s1.fmt m })
    else (none, s1)

/-- assign_fmt_id (format.c): returns the assigned id (none models the
0xFFFFFFFF error return) together with the new global state. -/
def assign_fmt_id (no_fmt_ids : Nat) (p_msg_data : Nat) (s : FmtState) :
    Option Nat × FmtState :=
  if no_fmt_ids = 0 then (none, s)
  else
    let cursor := advance_align s.fmt (s.topmost_fmt_id - s.fmt_align_value)
        s.fmt_align_value
    let s1 := { s with fmt_align_value := cursor }
    assign_fmt_id_found no_fmt_ids p_msg_data s1
      (search_fmt_id s1.fmt s1.topmost_fmt_id no_fmt_ids
        (s1.topmost_fmt_id + 1) (fmt_align_expr cursor no_fmt_ids))

theorem assign_fmt_id_found_none (k p : Nat) (s1 : FmtState) :
    assign_fmt_id_found k p s1 none = (none, s1) := rfl

theorem assign_fmt_id_found_pos (k p id : Nat) (s1 : FmtState)
    (h : id + k < s1.topmost_fmt_id ∧ k < s1.topmost_fmt_id) :
    assign_fmt_id_found k p s1 (some id) =
      (some id,
        { s1 with
          fmt_ids_defined := if id + k > s1.fmt_ids_defined then id + k
            else s1.fmt_ids_defined,
          fmt := fun m => if id ≤ m ∧ m < id + k then some p
            else s1.fmt m }) := by
  simp only [assign_fmt_id_found, if_pos h]

theorem assign_fmt_id_found_neg (k p id : Nat) (s1 : FmtState)
    (h : ¬ (id + k < s1.topmost_fmt_id ∧ k < s1.topmost_fmt_id)) :
    assign_fmt_id_found k p s1 (some id) = (none, s1) := by
  simp only [assign_fmt_id_found, if_neg h]

/-- Clearing the low j bits with the C mask ~(2^j - 1) rounds down to a
multiple of 2^j (for values below 2^32). -/
theorem and_mask_eq_div_mul (a j : Nat) (hj : j ≤ 32) (ha : a < 2 ^ 32) :
    a &&& ((2 ^ 32 - 1) - (2 ^ j - 1)) = a / 2 ^ j * 2 ^ j := by
  have hmask : (2 ^ 32 - 1) - (2 ^ j - 1) = (2 ^ (32 - j) - 1) <<< j := by
    have h1 : (2 : Nat) ^ 32 = 2 ^ (32 - j) * 2 ^ j := by
      rw [← pow_add]
      congr 1
      omega
    have h2 : (1 : Nat) ≤ 2 ^ j := Nat.one_le_two_pow
    have h3 : (1 : Nat) ≤ 2 ^ (32 - j) := Nat.one_le_two_pow
    rw [Nat.shiftLeft_eq]
    rw [Nat.sub_one_mul, h1]
    omega
  have hdiv : a / 2 ^ j * 2 ^ j = (a >>> j) <<< j := by
    rw [Nat.shiftRight_eq_div_pow, Nat.shiftLeft_eq]
  rw [hmask, hdiv]
  apply Nat.eq_of_testBit_eq
  intro i
  rw [Nat.testBit_land, Nat.testBit_shiftLeft, Nat.testBit_shiftLeft,
    Nat.testBit_shiftRight, Nat.testBit_two_pow_sub_one]
  by_cases hji : j ≤ i
  · have hadd : j + (i - j) = i := by omega
    rw [hadd]
    by_cases hi32 : i < 32
    · have : i - j < 32 - j := by omega
      simp [hji, this]
    · have hfalse : a.testBit i = false := by
        apply Nat.testBit_lt_two_pow
        calc a < 2 ^ 32 := ha
          _ ≤ 2 ^ i := Nat.pow_le_pow_right (by omega) (by omega)
      simp [hfalse]
  · simp [hji]

/-- The C alignment expression rounds its argument up to the next multiple of
k when k = 2^j is a power of two and no 32-bit overflow occurs. -/
theorem fmt_align_expr_eq_roundup (x k j : Nat) (hk : k = 2 ^ j) (hj : j ≤ 32)
    (hx : x + k - 1 < 2 ^ 32) :
    fmt_align_expr x k = (x + k - 1) / k * k := by
  unfold fmt_align_expr
  rw [Nat.mod_eq_of_lt hx, hk]
  exact and_mask_eq_div_mul _ j hj (hk ▸ hx)

theorem advance_align_ge (fmt : Nat → Option Nat) (fuel c : Nat) :
    c ≤ advance_align fmt fuel c := by
  induction fuel generalizing c with
  | zero => simp [advance_align]
  | succ n ih =>
    unfold advance_align
    split
    · exact le_refl c
    · exact le_trans (Nat.le_succ c) (ih (c + 1))

theorem advance_align_le (fmt : Nat → Option Nat) (fuel c : Nat) :
    advance_align fmt fuel c ≤ c + fuel := by
  induction fuel generalizing c with
  | zero => simp [advance_align]
  | succ n ih =>
    unfold advance_align
    split
    · omega
    · have := ih (c + 1)
      omega

theorem advance_align_filled (fmt : Nat → Option Nat) (fuel c : Nat) :
    ∀ i, c ≤ i → i < advance_align fmt fuel c → fmt i ≠ none := by
  induction fuel generalizing c with
  | zero => intro i h1 h2; simp [advance_align] at h2; omega
  | succ n ih =>
    intro i h1 h2
    unfold advance_align at h2
    split at h2
    · omega
    · rcases Nat.eq_or_lt_of_le h1 with heq | hlt
      · subst heq; assumption
      · exact ih (c + 1) i hlt h2

theorem advance_align_stop (fmt : Nat → Option Nat) (fuel c : Nat) :
    advance_align fmt fuel c = c + fuel ∨ fmt (advance_align fmt fuel c) = none := by
  induction fuel generalizing c with
  | zero => left; simp [advance_align]
  | succ n ih =>
    unfold advance_align
    split
    · right; assumption
    · rcases ih (c + 1) with h | h
      · left; omega
      · right; exact h

theorem search_fmt_id_some {fmt : Nat → Option Nat} {topmost k fuel id0 id : Nat}
    (h : search_fmt_id fmt topmost k fuel id0 = some id) :
    id0 ≤ id ∧ k ∣ (id - id0) ∧ id < topmost ∧ range_free fmt id k = true := by
  induction fuel generalizing id0 with
  | zero => simp [search_fmt_id] at h
  | succ n ih =>
    unfold search_fmt_id at h
    split at h
    · split at h
      · cases h
        exact ⟨le_refl _, ⟨0, by omega⟩, by assumption, by assumption⟩
      · obtain ⟨h1, h2, h3, h4⟩ := ih h
        refine ⟨by omega, ?_, h3, h4⟩
        have heq : id - id0 = (id - (id0 + k)) + k := by omega
        rw [heq]
        exact Nat.dvd_add h2 (dvd_refl k)
    · cases h

theorem search_fmt_id_at_free {fmt : Nat → Option Nat} {topmost k fuel id0 : Nat}
    (hfuel : 0 < fuel) (hlt : id0 < topmost) (hfree : range_free fmt id0 k = true) :
    search_fmt_id fmt topmost k fuel id0 = some id0 := by
  cases fuel with
  | zero => omega
  | succ n => simp [search_fmt_id, hlt, hfree]

theorem search_fmt_id_past_top {fmt : Nat → Option Nat} {topmost k fuel id0 : Nat}
    (hge : topmost ≤ id0) :
    search_fmt_id fmt topmost k fuel id0 = none := by
  cases fuel with
  | zero => rfl
  | succ n => simp [search_fmt_id]; omega

/-- Behaviour claimed for one call of the allocator, stated for an arbitrary
prior state: the cursor is advanced past filled slots; a successful call
returns a k-aligned id at or past the rounded-up cursor whose whole range was
free, fills exactly that range with the plan pointer, and satisfies
id + k < topmost; a failed call assigns no slot; and the call fails whenever
the aligned candidate range would end at or beyond topmost. -/
def allocSpec (s : FmtState) (k p : Nat) : Prop :=
  let r := assign_fmt_id k p s
  let c := advance_align s.fmt (s.topmost_fmt_id - s.fmt_align_value)
      s.fmt_align_value
  let start := (c + k - 1) / k * k
  (r.2.fmt_align_value = c ∧ s.fmt_align_value ≤ c ∧ c ≤ s.topmost_fmt_id ∧
    (∀ i, s.fmt_align_value ≤ i → i < c → s.fmt i ≠ none) ∧
    (c = s.topmost_fmt_id ∨ s.fmt c = none)) ∧
  (∀ id, r.1 = some id →
    id % k = 0 ∧ start ≤ id ∧ range_free s.fmt id k = true ∧
    id + k < s.topmost_fmt_id ∧
    (∀ i, i < k → r.2.fmt (id + i) = some p) ∧
    (∀ m, m < id ∨ id + k ≤ m → r.2.fmt m = s.fmt m)) ∧
  (r.1 = none → ∀ m, r.2.fmt m = s.fmt m) ∧
  (range_free s.fmt start k = true → s.topmost_fmt_id ≤ start + k →
    r.1 = none)

/-- C1: the format-ID allocator advances the cursor past filled slots, rounds
the candidate up to the next multiple of k, succeeds only on a fully free
aligned range that it then fills with the plan pointer, assigns nothing on
failure, and fails whenever the aligned range would end at or beyond topmost
(amended: the code also rejects the boundary case start + k = topmost). -/
theorem C1_assign_fmt_id_correct (s : FmtState) (k p j : Nat) (hk : k = 2 ^ j)
    (htop : s.topmost_fmt_id + k ≤ 2 ^ 32)
    (hcur : s.fmt_align_value ≤ s.topmost_fmt_id) :
    allocSpec s k p := by
  have hkpos : 0 < k := by rw [hk]; positivity
  have hne : ¬ (k = 0) := by omega
  have hj32 : j ≤ 32 := by
    by_contra hlt
    push_neg at hlt
    have h1 : (2 : Nat) ^ 32 < 2 ^ j := Nat.pow_lt_pow_right (by norm_num) (by omega)
    omega
  have hcge := advance_align_ge s.fmt (s.topmost_fmt_id - s.fmt_align_value)
    s.fmt_align_value
  have hcle : advance_align s.fmt (s.topmost_fmt_id - s.fmt_align_value)
      s.fmt_align_value ≤ s.topmost_fmt_id := by
    have := advance_align_le s.fmt (s.topmost_fmt_id - s.fmt_align_value)
      s.fmt_align_value
    omega
  have hfilled := advance_align_filled s.fmt
    (s.topmost_fmt_id - s.fmt_align_value) s.fmt_align_value
  have hstop : advance_align s.fmt (s.topmost_fmt_id - s.fmt_align_value)
        s.fmt_align_value = s.topmost_fmt_id ∨
      s.fmt (advance_align s.fmt (s.topmost_fmt_id - s.fmt_align_value)
        s.fmt_align_value) = none := by
    rcases advance_align_stop s.fmt (s.topmost_fmt_id - s.fmt_align_value)
        s.fmt_align_value with h | h
    · left; omega
    · right; exact h
  have halign : fmt_align_expr (advance_align s.fmt
        (s.topmost_fmt_id - s.fmt_align_value) s.fmt_align_value) k
      = (advance_align s.fmt (s.topmost_fmt_id - s.fmt_align_value)
        s.fmt_align_value + k - 1) / k * k :=
    fmt_align_expr_eq_roundup _ k j hk hj32 (by omega)
  have hdvd_start : k ∣ (advance_align s.fmt
      (s.topmost_fmt_id - s.fmt_align_value) s.fmt_align_value + k - 1) / k * k :=
    dvd_mul_left k _
  have hassign : assign_fmt_id k p s = assign_fmt_id_found k p
      { s with fmt_align_value := (advance_align s.fmt
          (s.topmost_fmt_id - s.fmt_align_value) s.fmt_align_value) }
      (search_fmt_id s.fmt s.topmost_fmt_id k (s.topmost_fmt_id + 1)
        (fmt_align_expr (advance_align s.fmt
          (s.topmost_fmt_id - s.fmt_align_value) s.fmt_align_value) k)) := by
    rw [assign_fmt_id, if_neg hne]
  simp only [allocSpec]
  rw [hassign]
  rcases hsearch : search_fmt_id s.fmt s.topmost_fmt_id k (s.topmost_fmt_id + 1)
      (fmt_align_expr (advance_align s.fmt (s.topmost_fmt_id - s.fmt_align_value)
        s.fmt_align_value) k) with _ | id
  · rw [assign_fmt_id_found_none]
    refine ⟨⟨rfl, hcge, hcle, hfilled, hstop⟩, ?_, ?_, ?_⟩
    · intro id h
      exact Option.noConfusion h
    · intro _ m
      rfl
    · intro _ _
      rfl
  · obtain ⟨hge, hdvd, hlt_top, hfree⟩ := search_fmt_id_some hsearch
    rw [halign] at hge hdvd
    have hid_dvd : k ∣ id := by
      have hsum : id = (advance_align s.fmt
          (s.topmost_fmt_id - s.fmt_align_value) s.fmt_align_value + k - 1) / k * k +
          (id - (advance_align s.fmt
            (s.topmost_fmt_id - s.fmt_align_value) s.fmt_align_value + k - 1) / k * k) := by
        omega
      rw [hsum]
      exact Nat.dvd_add hdvd_start hdvd
    by_cases hcond : id + k < s.topmost_fmt_id ∧ k < s.topmost_fmt_id
    · rw [assign_fmt_id_found_pos k p id { s with fmt_align_value := (advance_align s.fmt
          (s.topmost_fmt_id - s.fmt_align_value) s.fmt_align_value) } hcond]
      refine ⟨⟨rfl, hcge, hcle, hfilled, hstop⟩, ?_, ?_, ?_⟩
      · intro id2 h2
        have hid2 := Option.some.inj h2
        subst hid2
        have hmod : id % k = 0 := by
          obtain ⟨m, hm⟩ := hid_dvd
          rw [hm]
          exact Nat.mul_mod_right k m
        refine ⟨hmod, hge, hfree, hcond.1, ?_, ?_⟩
        · intro i hi
          have hin : id ≤ id + i ∧ id + i < id + k := by omega
          simp [hin]
        · intro m hm
          have hout : ¬ (id ≤ m ∧ m < id + k) := by omega
          simp [hout]
      · intro h2
        exact Option.noConfusion h2
      · intro hfree2 htop2
        exfalso
        rcases Nat.lt_or_ge (fmt_align_expr (advance_align s.fmt
            (s.topmost_fmt_id - s.fmt_align_value) s.fmt_align_value) k)
            s.topmost_fmt_id with hlt | hge2
        · have hat := @search_fmt_id_at_free s.fmt s.topmost_fmt_id k
            (s.topmost_fmt_id + 1)
            (fmt_align_expr (advance_align s.fmt
              (s.topmost_fmt_id - s.fmt_align_value) s.fmt_align_value) k)
            (by omega) hlt (by rw [halign]; exact hfree2)
          rw [hsearch] at hat
          have := Option.some.inj hat
          omega
        · have hnone := @search_fmt_id_past_top s.fmt s.topmost_fmt_id k
            (s.topmost_fmt_id + 1)
            (fmt_align_expr (advance_align s.fmt
              (s.topmost_fmt_id - s.fmt_align_value) s.fmt_align_value) k)
            hge2
          rw [hsearch] at hnone
          exact Option.noConfusion hnone
    · rw [assign_fmt_id_found_neg k p id { s with fmt_align_value := (advance_align s.fmt
          (s.topmost_fmt_id - s.fmt_align_value) s.fmt_align_value) } hcond]
      refine ⟨⟨rfl, hcge, hcle, hfilled, hstop⟩, ?_, ?_, ?_⟩
      · intro id2 h2
        exact Option.noConfusion h2
      · intro _ m
        rfl
      · intro _ _
        rfl

/-- Allocator state for the C1 boundary refutation: topmost = 510 (N = 9),
ids 0..507 assigned, ids 508 and 509 free, cursor at 508. -/
def c1BoundaryState : FmtState :=
  ⟨fun i => if i < 508 then some 1 else none, 508, 508, 510⟩

/-- C1 counterexample: the advanced cursor is 508, already a multiple of 2,
slots 508 and 509 are both free, and start + k = 510 does not exceed
topmost = 510 - so the claim as stated promises success - yet the call
returns the error value and assigns no slot. -/
theorem C1_counterexample :
    advance_align c1BoundaryState.fmt
      (c1BoundaryState.topmost_fmt_id - c1BoundaryState.fmt_align_value)
      c1BoundaryState.fmt_align_value = 508 ∧
    fmt_align_expr 508 2 = 508 ∧
    range_free c1BoundaryState.fmt 508 2 = true ∧
    ¬ (508 + 2 > c1BoundaryState.topmost_fmt_id) ∧
    (assign_fmt_id 2 7 c1BoundaryState).1 = none ∧
    (assign_fmt_id 2 7 c1BoundaryState).2.fmt 508 = none ∧
    (assign_fmt_id 2 7 c1BoundaryState).2.fmt 509 = none := by
  refine ⟨by decide, by decide, by decide, by decide, by decide, by decide,
    by decide⟩

/-- C1 witness: the allocator specification applied to a concrete empty table
with topmost 8 and a request for an aligned pair of ids. -/
theorem C1_assign_fmt_id_correct_witness :
    ((2 : Nat) = 2 ^ 1 ∧
      (⟨fun _ => none, 0, 0, 8⟩ : FmtState).topmost_fmt_id + 2 ≤ 2 ^ 32 ∧
      (⟨fun _ => none, 0, 0, 8⟩ : FmtState).fmt_align_value ≤
        (⟨fun _ => none, 0, 0, 8⟩ : FmtState).topmost_fmt_id) ∧
    allocSpec (⟨fun _ => none, 0, 0, 8⟩ : FmtState) 2 7 :=
  ⟨⟨by decide, by decide, by decide⟩,
    C1_assign_fmt_id_correct _ 2 7 1 (by decide) (by decide) (by decide)⟩

/-! ## Timestamp reconstruction (statistics.c, process_timestamp_value)

State record for the fields of g_msg read or written by
process_timestamp_value.  The low timestamp words l and old are normalized
uint32 values, h is the high uint32 word, max_pos and max_neg mirror the
int64 parameters g_msg.param.max_positive_tstamp_diff and
max_negative_tstamp_diff.  The collaborating search routine
long_timestamp_found is passed in as a function on the state returning the
C bool result together with the state it leaves behind. -/

structure TstampState where
  l : Nat
  old : Nat
  h : Nat
  no_previous_tstamp : Bool
  mark_problematic_tstamps : Bool
  msg_long_tstamp_incremented : Nat
  message_cnt : Nat
  searched_to_index : Nat
  index : Nat
  max_pos : Int
  max_neg : Int

/-- NORMALIZED_TSTAMP_PERIOD (main.h): (int64_t)0x100000000. -/
def TSTAMP_PERIOD : Int := 2 ^ 32

/-- DEFAULT_POSITIVE_TIMESTAMP_DIFF = (int64_t)(0.33 * 2^32), evaluated on
IEEE doubles and truncated toward zero. -/
def DEFAULT_POSITIVE_TIMESTAMP_DIFF : Int := 1417339207

/-- DEFAULT_NEGATIVE_TIMESTAMP_DIFF = (int64_t)(-0.10 * 2^32), evaluated on
IEEE doubles and truncated toward zero. -/
def DEFAULT_NEGATIVE_TIMESTAMP_DIFF : Int := -429496729

/-- The signed 64-bit difference (int64_t)timestamp.l - (int64_t)timestamp.old. -/
def tdiff (s : TstampState) : Int := (s.l : Int) - (s.old : Int)

/-- Body of the wrap-around branch: increment the high word (uint32 wrap) and
remember the message counter, unless fewer than 4 messages have been
processed since the last increment (uint32 subtraction modelled mod 2^32). -/
def wrap_inc_state (s : TstampState) : TstampState :=
  if 4 ≤ (s.message_cnt + 2 ^ 32 - s.msg_long_tstamp_incremented) % 2 ^ 32 then
    { s with msg_long_tstamp_incremented := s.message_cnt,
             h := (s.h + 1) % 2 ^ 32 }
  else s

/-- The five-way branch of process_timestamp_value.  Returns the state after
the branch, the (possibly updated) 64-bit p_new_timestamp value, and the
search_next_long_tstamp and update_old_tstamp_value flags. -/
def pt_branch (s : TstampState) (p_new : Nat) : TstampState × Nat × Bool × Bool :=
  if 0 ≤ tdiff s ∧ tdiff s ≤ s.max_pos then
    (s, p_new, false, true)
  else if tdiff s < 0 ∧ s.max_neg ≤ tdiff s then
    (s, p_new, false, false)
  else if 2 ^ 31 ≤ s.old ∧ tdiff s ≤ -(TSTAMP_PERIOD - s.max_pos) ∧
      s.no_previous_tstamp = false then
    (wrap_inc_state s,
      (wrap_inc_state s).h <<< 32 ||| (wrap_inc_state s).l, false, true)
  else if s.old < 2 ^ 31 ∧ TSTAMP_PERIOD + s.max_neg ≤ tdiff s ∧
      s.no_previous_tstamp = false then
    (s, (if 0 < s.h then s.h - 1 else 0) <<< 32 ||| s.l, false, false)
  else
    ({ s with mark_problematic_tstamps := !s.no_previous_tstamp }, p_new, true, true)

/-- Conditional search for the next long timestamp at the end of
process_timestamp_value. -/
def pt_search (lts : TstampState → Bool × TstampState) (s4 : TstampState)
    (p1 : Nat) (search_next : Bool) : TstampState × Nat :=
  if (search_next = true ∧ s4.searched_to_index < s4.index) ∨
      s4.no_previous_tstamp = true then
    if (lts s4).1 = true then
      ({ (lts s4).2 with old := (lts s4).2.l },
        (lts s4).2.h <<< 32 ||| (lts s4).2.l)
    else ((lts s4).2, p1)
  else (s4, p1)

/-- Tail of process_timestamp_value: conditional update of timestamp.old,
then the conditional long-timestamp search. -/
def pt_tail (lts : TstampState → Bool × TstampState)
    (b : TstampState × Nat × Bool × Bool) : TstampState × Nat :=
  pt_search lts
    (if b.2.2.2 = true ∨ b.1.no_previous_tstamp = true then
      { b.1 with old := b.1.l } else b.1)
    b.2.1 b.2.2.1

/-- process_timestamp_value (statistics.c): p_new is the in-out
p_new_timestamp parameter. -/
def process_timestamp_value (lts : TstampState → Bool × TstampState)
    (s : TstampState) (p_new : Nat) : TstampState × Nat :=
  pt_tail lts (pt_branch s p_new)

/-- long_timestamp_found in a run where the firmware does not use long
timestamps (hdr_data.long_timestamp_used false): the function returns false
immediately without touching the state. -/
def lts_unavailable : TstampState → Bool × TstampState := fun s => (false, s)

theorem wrap_inc_state_l (s : TstampState) : (wrap_inc_state s).l = s.l := by
  unfold wrap_inc_state
  split <;> rfl

theorem wrap_inc_state_no_previous (s : TstampState) :
    (wrap_inc_state s).no_previous_tstamp = s.no_previous_tstamp := by
  unfold wrap_inc_state
  split <;> rfl

theorem wrap_inc_state_pos (s : TstampState)
    (h : 4 ≤ (s.message_cnt + 2 ^ 32 - s.msg_long_tstamp_incremented) % 2 ^ 32) :
    wrap_inc_state s =
      { s with msg_long_tstamp_incremented := s.message_cnt,
               h := (s.h + 1) % 2 ^ 32 } := by
  unfold wrap_inc_state
  rw [if_pos h]

theorem wrap_inc_state_neg (s : TstampState)
    (h : ¬ 4 ≤ (s.message_cnt + 2 ^ 32 - s.msg_long_tstamp_incremented) % 2 ^ 32) :
    wrap_inc_state s = s := by
  unfold wrap_inc_state
  rw [if_neg h]

/-- C2: for a message with a previous timestamp whose old normalized low word
lies in the top half of the period and whose difference l - old is at most
-(PERIOD - max_pos), the wrap-around branch runs: timestamp.old is updated to
l, tstamp_h is incremented exactly when at least 4 messages have passed since
the last increment (otherwise the increment is suppressed), and the message
timestamp is rebuilt from the resulting high word. -/
theorem C2_wrap_increment (lts : TstampState → Bool × TstampState)
    (s : TstampState) (p_new : Nat)
    (hnp : s.no_previous_tstamp = false)
    (hold : 2 ^ 31 ≤ s.old)
    (hdiff : (s.l : Int) - (s.old : Int) ≤ -(TSTAMP_PERIOD - s.max_pos))
    (hpos : s.max_pos < TSTAMP_PERIOD)
    (hgap : -(TSTAMP_PERIOD - s.max_pos) < s.max_neg) :
    (process_timestamp_value lts s p_new).1.old = s.l ∧
    (4 ≤ (s.message_cnt + 2 ^ 32 - s.msg_long_tstamp_incremented) % 2 ^ 32 →
      (process_timestamp_value lts s p_new).1.h = (s.h + 1) % 2 ^ 32 ∧
      (process_timestamp_value lts s p_new).1.msg_long_tstamp_incremented =
        s.message_cnt) ∧
    ((s.message_cnt + 2 ^ 32 - s.msg_long_tstamp_incremented) % 2 ^ 32 < 4 →
      (process_timestamp_value lts s p_new).1.h = s.h ∧
      (process_timestamp_value lts s p_new).1.msg_long_tstamp_incremented =
        s.msg_long_tstamp_incremented) ∧
    (process_timestamp_value lts s p_new).2 =
      (process_timestamp_value lts s p_new).1.h <<< 32 ||| s.l := by
  have hb1 : ¬ (0 ≤ tdiff s ∧ tdiff s ≤ s.max_pos) := by
    simp only [TSTAMP_PERIOD] at hdiff hpos
    unfold tdiff
    omega
  have hb2 : ¬ (tdiff s < 0 ∧ s.max_neg ≤ tdiff s) := by
    simp only [TSTAMP_PERIOD] at hdiff hgap
    unfold tdiff
    omega
  have hb3 : 2 ^ 31 ≤ s.old ∧ tdiff s ≤ -(TSTAMP_PERIOD - s.max_pos) ∧
      s.no_previous_tstamp = false := ⟨hold, hdiff, hnp⟩
  have hbr : pt_branch s p_new = (wrap_inc_state s,
      (wrap_inc_state s).h <<< 32 ||| (wrap_inc_state s).l, false, true) := by
    unfold pt_branch
    rw [if_neg hb1, if_neg hb2, if_pos hb3]
  have htl : process_timestamp_value lts s p_new =
      ({ wrap_inc_state s with old := (wrap_inc_state s).l },
        (wrap_inc_state s).h <<< 32 ||| (wrap_inc_state s).l) := by
    unfold process_timestamp_value
    rw [hbr]
    unfold pt_tail
    rw [if_pos (Or.inl rfl)]
    unfold pt_search
    rw [if_neg (by simp [wrap_inc_state_no_previous, hnp])]
  refine ⟨?_, ?_, ?_, ?_⟩
  · rw [htl]
    exact wrap_inc_state_l s
  · intro hsup
    rw [htl, wrap_inc_state_pos s hsup]
    exact ⟨rfl, rfl⟩
  · intro hsup
    rw [htl, wrap_inc_state_neg s (by omega)]
    exact ⟨rfl, rfl⟩
  · rw [htl, wrap_inc_state_l]

/-- C8 (amended with the no-previous-timestamp flag clear): a message whose
timestamp difference lies in [max_neg, 0) is accepted as out-of-order
delivery and the whole reconstruction step is the identity: timestamp.old,
tstamp_h and every other field are left unchanged and no search is started. -/
theorem C8_out_of_order (lts : TstampState → Bool × TstampState)
    (s : TstampState) (p_new : Nat)
    (hnp : s.no_previous_tstamp = false)
    (hneg : (s.l : Int) - (s.old : Int) < 0)
    (hge : s.max_neg ≤ (s.l : Int) - (s.old : Int)) :
    process_timestamp_value lts s p_new = (s, p_new) := by
  have hb1 : ¬ (0 ≤ tdiff s ∧ tdiff s ≤ s.max_pos) := by
    unfold tdiff
    omega
  have hb2 : tdiff s < 0 ∧ s.max_neg ≤ tdiff s := by
    unfold tdiff
    exact ⟨hneg, hge⟩
  unfold process_timestamp_value pt_branch
  rw [if_neg hb1, if_pos hb2]
  unfold pt_tail
  rw [if_neg (by simp [hnp])]
  unfold pt_search
  rw [if_neg (by simp [hnp])]

/-- Timestamp state refuting C8 as universally stated: the
no-previous-timestamp flag is set (as after a decoding error), old = 100,
l = 50, with the default timestamp-difference parameters. -/
def c8State : TstampState :=
  ⟨50, 100, 5, true, false, 0, 0, 0, 0, DEFAULT_POSITIVE_TIMESTAMP_DIFF,
    DEFAULT_NEGATIVE_TIMESTAMP_DIFF⟩

/-- C8 counterexample: the difference -50 lies in [MAX_NEG, 0), yet the
reconstruction step rewrites timestamp.old from 100 to 50, because the
no-previous-timestamp flag forces the old-value update. -/
theorem C8_counterexample :
    (DEFAULT_NEGATIVE_TIMESTAMP_DIFF ≤ (c8State.l : Int) - (c8State.old : Int) ∧
      (c8State.l : Int) - (c8State.old : Int) < 0) ∧
    c8State.old = 100 ∧
    (process_timestamp_value lts_unavailable c8State 0).1.old = 50 := by
  refine ⟨⟨by decide, by decide⟩, by decide, by decide⟩

/-- C8 witness: the amended out-of-order property applied to the same state
with the no-previous-timestamp flag clear. -/
theorem C8_out_of_order_witness :
    (({ c8State with no_previous_tstamp := false } : TstampState).no_previous_tstamp
        = false ∧
      (({ c8State with no_previous_tstamp := false } : TstampState).l : Int) -
        (({ c8State with no_previous_tstamp := false } : TstampState).old : Int) < 0 ∧
      ({ c8State with no_previous_tstamp := false } : TstampState).max_neg ≤
        (({ c8State with no_previous_tstamp := false } : TstampState).l : Int) -
        (({ c8State with no_previous_tstamp := false } : TstampState).old : Int)) ∧
    process_timestamp_value lts_unavailable
      { c8State with no_previous_tstamp := false } 0 =
      ({ c8State with no_previous_tstamp := false }, 0) :=
  ⟨⟨by decide, by decide, by decide⟩,
    C8_out_of_order lts_unavailable _ 0 (by decide) (by decide) (by decide)⟩

/-- First message of the C2 wrap scenario: low word 0xFFFF0000 arriving with
old = 0xFFFE0000, high word 5, message counter 10. -/
def c2State1 : TstampState :=
  ⟨0xFFFF0000, 0xFFFE0000, 5, false, false, 0, 10, 0, 0,
    DEFAULT_POSITIVE_TIMESTAMP_DIFF, DEFAULT_NEGATIVE_TIMESTAMP_DIFF⟩

/-- Second message of the C2 wrap scenario: low word 0x00010000 follows, the
message counter has advanced to 11, and no long timestamp arrived between
the two messages. -/
def c2State2 : TstampState :=
  { (process_timestamp_value lts_unavailable c2State1 0).1 with
    l := 0x00010000, message_cnt := 11 }

/-- C2 witness: two messages with low counters 0xFFFF0000 then 0x00010000 and
no long timestamp in between increment tstamp_h exactly once (5 after the
first message, 6 after the second), via the wrap-around branch theorem. -/
theorem C2_wrap_increment_witness :
    (c2State2.no_previous_tstamp = false ∧ 2 ^ 31 ≤ c2State2.old ∧
      (c2State2.l : Int) - (c2State2.old : Int) ≤
        -(TSTAMP_PERIOD - c2State2.max_pos) ∧
      c2State2.max_pos < TSTAMP_PERIOD ∧
      -(TSTAMP_PERIOD - c2State2.max_pos) < c2State2.max_neg) ∧
    ((process_timestamp_value lts_unavailable c2State1 0).1.h = 5 ∧
      (process_timestamp_value lts_unavailable c2State2 0).1.h = 6) ∧
    ((process_timestamp_value lts_unavailable c2State2 0).1.old = c2State2.l ∧
    (4 ≤ (c2State2.message_cnt + 2 ^ 32 - c2State2.msg_long_tstamp_incremented)
        % 2 ^ 32 →
      (process_timestamp_value lts_unavailable c2State2 0).1.h =
        (c2State2.h + 1) % 2 ^ 32 ∧
      (process_timestamp_value lts_unavailable c2State2 0).1.msg_long_tstamp_incremented =
        c2State2.message_cnt) ∧
    ((c2State2.message_cnt + 2 ^ 32 - c2State2.msg_long_tstamp_incremented)
        % 2 ^ 32 < 4 →
      (process_timestamp_value lts_unavailable c2State2 0).1.h = c2State2.h ∧
      (process_timestamp_value lts_unavailable c2State2 0).1.msg_long_tstamp_incremented =
        c2State2.msg_long_tstamp_incremented) ∧
    (process_timestamp_value lts_unavailable c2State2 0).2 =
      (process_timestamp_value lts_unavailable c2State2 0).1.h <<< 32 |||
        c2State2.l) :=
  ⟨⟨by decide, by decide, by decide, by decide, by decide⟩,
    ⟨by decide, by decide⟩,
    C2_wrap_increment lts_unavailable c2State2 0 (by decide) (by decide)
      (by decide) (by decide) (by decide)⟩

/-! ## Message reassembly (process_bin_data.c, find_fmt_word and
skip_unfinished_words)

State record for the g_msg fields touched by the sub-packet search loop.
rte_buffer and raw_data are word arrays modelled as functions; asm_words is
the number of words already moved into the assembled message. -/

structure AsmState where
  index : Nat
  in_size : Nat
  rte_buffer : Nat → Nat
  asm_words : Nat
  raw_data : Nat → Nat
  bad_packet_words : Nat
  unfinished_words : Nat

inductive AsmResult where
  | DATA_FOUND
  | FMT_WORD_OK
  | BAD_BLOCK
  | UNFINISHED_BLOCK
  deriving DecidableEq

/-- MAX_RAW_DATA_SIZE (main.h). -/
def MAX_RAW_DATA_SIZE : Nat := 256

/-- Loop of skip_unfinished_words: starting at idx with counter n, skip
words equal to 0xFFFFFFFF until a different word or the end of the buffer
(fuel = in_size - idx at the call).  Returns (count, final index). -/
def skip_unfinished_aux (buf : Nat → Nat) : Nat → Nat → Nat → Nat × Nat
  | 0, idx, n => (n, idx)
  | fuel + 1, idx, n =>
    if buf idx ≠ 0xFFFFFFFF then (n, idx)
    else skip_unfinished_aux buf fuel (idx + 1) (n + 1)

/-- skip_unfinished_words (process_bin_data.c): skips the run of 0xFFFFFFFF
words at the current index and returns how many were skipped. -/
def skip_unfinished_words (s : AsmState) : Nat × AsmState :=
  ((skip_unfinished_aux s.rte_buffer (s.in_size - s.index) s.index 0).1,
    { s with
      index := ((skip_unfinished_aux s.rte_buffer (s.in_size - s.index)
        s.index 0).2) })

/-- One DATA-word step of the find_fmt_word loop: store the word in
raw_data[packet_words] and advance the read index. -/
def store_data_word (s : AsmState) (pw : Nat) : AsmState :=
  { s with index := s.index + 1,
           raw_data := fun i => if i = pw then s.rte_buffer s.index
             else s.raw_data i }

/-- find_fmt_word (process_bin_data.c): reads DATA words into raw_data until
a FMT word (bit 0 set) is found.  pw is the in-out packet_words counter; the
last component is the FMT word written through p_data.  The loop advances
index by one word per iteration; fuel = in_size - index + 1 at the top-level
call keeps the recursion structural (the zero-fuel case coincides with the
end-of-buffer exit, which is the only way the fuel can run out). -/
def find_fmt_word_aux :
    Nat → AsmState → Nat → AsmResult × AsmState × Nat × Option Nat
  | 0, s, pw => (.BAD_BLOCK, { s with bad_packet_words := pw }, pw, none)
  | fuel + 1, s, pw =>
    if MAX_RAW_DATA_SIZE ≤ pw ∨ s.in_size ≤ s.index then
      (.BAD_BLOCK, { s with bad_packet_words := pw }, pw, none)
    else if s.rte_buffer s.index = 0xFFFFFFFF then
      if 0 < s.asm_words then
        (.DATA_FOUND, { s with index := s.index - pw }, 0, none)
      else if 0 < pw then
        (.BAD_BLOCK, { s with bad_packet_words := pw }, pw, none)
      else
        (.UNFINISHED_BLOCK,
          { (skip_unfinished_words s).2 with
            unfinished_words := (skip_unfinished_words s).1 }, pw, none)
    else
      if s.rte_buffer s.index % 2 = 0 then
        find_fmt_word_aux fuel (store_data_word s pw) (pw + 1)
      else
        (.FMT_WORD_OK, store_data_word s pw, pw + 1,
          some (s.rte_buffer s.index))

def find_fmt_word (s : AsmState) (pw : Nat) :
    AsmResult × AsmState × Nat × Option Nat :=
  find_fmt_word_aux (s.in_size - s.index + 1) s pw

/-- Behaviour of the sentinel-skipping loop: the count grows from n by the
length of the 0xFFFFFFFF run, every skipped word is 0xFFFFFFFF, and the loop
stops at the first other word or when the fuel (buffer end) is reached. -/
theorem skip_unfinished_aux_spec (buf : Nat → Nat) (fuel idx n : Nat) :
    n ≤ (skip_unfinished_aux buf fuel idx n).1 ∧
    (skip_unfinished_aux buf fuel idx n).2 =
      idx + ((skip_unfinished_aux buf fuel idx n).1 - n) ∧
    (skip_unfinished_aux buf fuel idx n).1 - n ≤ fuel ∧
    (∀ i, idx ≤ i → i < (skip_unfinished_aux buf fuel idx n).2 →
      buf i = 0xFFFFFFFF) ∧
    ((skip_unfinished_aux buf fuel idx n).1 - n = fuel ∨
      buf (skip_unfinished_aux buf fuel idx n).2 ≠ 0xFFFFFFFF) := by
  induction fuel generalizing idx n with
  | zero =>
    refine ⟨le_refl _, by simp [skip_unfinished_aux], by simp [skip_unfinished_aux], ?_, ?_⟩
    · intro i h1 h2
      simp [skip_unfinished_aux] at h2
      omega
    · left
      simp [skip_unfinished_aux]
  | succ m ih =>
    unfold skip_unfinished_aux
    split
    · refine ⟨le_refl _, by omega, by omega, ?_, ?_⟩
      · intro i h1 h2
        omega
      · right
        assumption
    · rename_i hsent
      push_neg at hsent
      obtain ⟨ih1, ih2, ih3, ih4, ih5⟩ := ih (idx + 1) (n + 1)
      refine ⟨by omega, by omega, by omega, ?_, ?_⟩
      · intro i h1 h2
        rcases Nat.eq_or_lt_of_le h1 with heq | hlt
        · subst heq
          exact hsent
        · exact ih4 i hlt (by omega)
      · rcases ih5 with h | h
        · left
          omega
        · right
          exact h

/-- C3 (amended: the dispatch below applies only when no words of the current
message have been assembled yet, asm_words = 0; when asm_words > 0 the code
instead rewinds the buffer past the collected words and returns DATA_FOUND):
reading the sentinel 0xFFFFFFFF with non-empty raw_data (packet_words > 0)
reports the collected words as BAD_BLOCK, and with empty raw_data the whole
run of sentinels is skipped and UNFINISHED_BLOCK is reported. -/
theorem C3_sentinel_handling (s : AsmState) (pw : Nat)
    (hasm : s.asm_words = 0)
    (hidx : s.index < s.in_size)
    (hpw : pw < MAX_RAW_DATA_SIZE)
    (hsent : s.rte_buffer s.index = 0xFFFFFFFF) :
    (0 < pw →
      find_fmt_word s pw =
        (.BAD_BLOCK, { s with bad_packet_words := pw }, pw, none)) ∧
    (pw = 0 →
      (find_fmt_word s pw).1 = .UNFINISHED_BLOCK ∧
      (find_fmt_word s pw).2.1.index =
        s.index + (find_fmt_word s pw).2.1.unfinished_words ∧
      (∀ i, s.index ≤ i →
        i < s.index + (find_fmt_word s pw).2.1.unfinished_words →
        s.rte_buffer i = 0xFFFFFFFF) ∧
      (s.index + (find_fmt_word s pw).2.1.unfinished_words = s.in_size ∨
        s.rte_buffer
          (s.index + (find_fmt_word s pw).2.1.unfinished_words) ≠
          0xFFFFFFFF)) := by
  have hguard : ¬ (MAX_RAW_DATA_SIZE ≤ pw ∨ s.in_size ≤ s.index) := by
    simp only [MAX_RAW_DATA_SIZE] at hpw ⊢
    omega
  have hnasm : ¬ 0 < s.asm_words := by omega
  constructor
  · intro hpwpos
    unfold find_fmt_word find_fmt_word_aux
    rw [if_neg hguard, if_pos hsent, if_neg hnasm, if_pos hpwpos]
  · intro hpw0
    subst hpw0
    obtain ⟨k1, k2, k3, k4, k5⟩ := skip_unfinished_aux_spec s.rte_buffer
      (s.in_size - s.index) s.index 0
    unfold find_fmt_word find_fmt_word_aux
    rw [if_neg hguard, if_pos hsent, if_neg hnasm, if_neg (by omega)]
    have haux2 : (skip_unfinished_aux s.rte_buffer (s.in_size - s.index)
        s.index 0).2 = s.index + (skip_unfinished_aux s.rte_buffer
        (s.in_size - s.index) s.index 0).1 := by omega
    refine ⟨rfl, ?_, ?_, ?_⟩
    · simp only [skip_unfinished_words]
      omega
    · intro i h1 h2
      simp only [skip_unfinished_words] at h2
      exact k4 i h1 (by omega)
    · simp only [skip_unfinished_words]
      rcases k5 with h | h
      · left
        omega
      · right
        rw [← haux2]
        exact h

/-- Reassembler state refuting C3 as stated: one word already assembled
(asm_words = 1), one raw word collected (packet_words = 1), and the next
buffer word is the 0xFFFFFFFF sentinel. -/
def c3BadState : AsmState :=
  ⟨1, 2, fun i => if i = 0 then 2 else 0xFFFFFFFF, 1, fun _ => 0, 0, 0⟩

/-- C3 counterexample: the sentinel is read while raw_data is non-empty
(packet_words = 1), yet the code returns DATA_FOUND, not BAD_BLOCK, because
asm_words > 0 takes priority. -/
theorem C3_counterexample :
    c3BadState.rte_buffer c3BadState.index = 0xFFFFFFFF ∧
    (0 : Nat) < 1 ∧
    (find_fmt_word c3BadState 1).1 = AsmResult.DATA_FOUND ∧
    ¬ (find_fmt_word c3BadState 1).1 = AsmResult.BAD_BLOCK := by
  refine ⟨by decide, by decide, by decide, by decide⟩

/-- Reassembler state for the C3 witness: an empty message, two sentinel
words then a normal word. -/
def c3SkipState : AsmState :=
  ⟨0, 3, fun i => if i < 2 then 0xFFFFFFFF else 5, 0, fun _ => 0, 0, 0⟩

/-- C3 witness: the amended sentinel dispatch applied to a concrete buffer
holding a run of two sentinels. -/
theorem C3_sentinel_handling_witness :
    (c3SkipState.asm_words = 0 ∧ c3SkipState.index < c3SkipState.in_size ∧
      (0 : Nat) < MAX_RAW_DATA_SIZE ∧
      c3SkipState.rte_buffer c3SkipState.index = 0xFFFFFFFF) ∧
    ((0 < (0 : Nat) →
      find_fmt_word c3SkipState 0 =
        (.BAD_BLOCK, { c3SkipState with bad_packet_words := 0 }, 0, none)) ∧
    ((0 : Nat) = 0 →
      (find_fmt_word c3SkipState 0).1 = .UNFINISHED_BLOCK ∧
      (find_fmt_word c3SkipState 0).2.1.index =
        c3SkipState.index + (find_fmt_word c3SkipState 0).2.1.unfinished_words ∧
      (∀ i, c3SkipState.index ≤ i →
        i < c3SkipState.index +
          (find_fmt_word c3SkipState 0).2.1.unfinished_words →
        c3SkipState.rte_buffer i = 0xFFFFFFFF) ∧
      (c3SkipState.index + (find_fmt_word c3SkipState 0).2.1.unfinished_words =
          c3SkipState.in_size ∨
        c3SkipState.rte_buffer
          (c3SkipState.index +
            (find_fmt_word c3SkipState 0).2.1.unfinished_words) ≠
          0xFFFFFFFF))) :=
  ⟨⟨by decide, by decide, by decide, by decide⟩,
    C3_sentinel_handling c3SkipState 0 (by decide) (by decide) (by decide)
      (by decide)⟩

/-! ## MSGX message finalization (utf8_helpers.c, prepare_message_msgx)

The assembled message buffer is modelled through its byte view (the C code
reads it both as uint32 words and as bytes); bytes are little-endian, so
word j is bytes(4j) + 2^8 bytes(4j+1) + 2^16 bytes(4j+2) + 2^24 bytes(4j+3).
asm_size is 4 * asm_words on entry (set by prepare_msg_and_check_it just
before the call), so the Nat subtractions asm_size - 1 and asm_size - 4
agree with the C unsigned arithmetic. -/

structure MsgxState where
  asm_words : Nat
  asm_size : Nat
  bytes : Nat → Nat

/-- Diagnostics emitted by prepare_message_msgx (report_problem,
report_problem2 and hex_dump_current_message calls). -/
inductive MsgxDiag where
  | sizeEmpty
  | sizeTooLarge (size limit : Nat)
  | sizeTooSmall (size limit : Nat)
  | corrupted
  | hexDump
  deriving DecidableEq

/-- The uint32 word j of the assembled message, read from the byte view. -/
def msg_word (bytes : Nat → Nat) (j : Nat) : Nat :=
  bytes (4 * j) + 2 ^ 8 * bytes (4 * j + 1) + 2 ^ 16 * bytes (4 * j + 2) +
    2 ^ 24 * bytes (4 * j + 3)

/-- (g_msg.assembled_msg[asm_words - 1] >> 24) & 0xFF: the logged size byte. -/
def msgx_size (s : MsgxState) : Nat :=
  (msg_word s.bytes (s.asm_words - 1) >>> 24) &&& 0xFF

/-- prepare_message_msgx (utf8_helpers.c): validates the size byte of an
rte_msgx() message, trims the message to that size and zeroes the four bytes
past its end.  Returns the C bool result, the new state, and the emitted
diagnostics in order. -/
def prepare_message_msgx (s : MsgxState) : Bool × MsgxState × List MsgxDiag :=
  if s.asm_size = 0 then (false, s, [.sizeEmpty])
  else if msgx_size s > s.asm_size - 1 then
    (false, s, [.sizeTooLarge (msgx_size s) (s.asm_size - 1), .hexDump])
  else if msgx_size s < s.asm_size - 4 then
    (false, s, [.sizeTooSmall (msgx_size s) (s.asm_size - 4), .hexDump])
  else if (msg_word s.bytes (s.asm_words - 1) &&& 0xFFFFFF) >>>
      ((msgx_size s &&& 3) * 8) ≠ 0 then
    (false, s, [.corrupted, .hexDump])
  else
    (true,
      { s with asm_size := msgx_size s,
               bytes := fun i => if msgx_size s ≤ i ∧ i ≤ msgx_size s + 3
                 then 0 else s.bytes i }, [])

theorem msgx_size_eq (s : MsgxState) (hb : ∀ i, s.bytes i < 256) :
    msgx_size s = s.bytes (4 * (s.asm_words - 1) + 3) := by
  unfold msgx_size msg_word
  have h0 := hb (4 * (s.asm_words - 1))
  have h1 := hb (4 * (s.asm_words - 1) + 1)
  have h2 := hb (4 * (s.asm_words - 1) + 2)
  have h3 := hb (4 * (s.asm_words - 1) + 3)
  have hX : s.bytes (4 * (s.asm_words - 1)) +
      2 ^ 8 * s.bytes (4 * (s.asm_words - 1) + 1) +
      2 ^ 16 * s.bytes (4 * (s.asm_words - 1) + 2) < 2 ^ 24 := by omega
  rw [Nat.shiftRight_eq_div_pow]
  rw [Nat.add_mul_div_left _ _ (by positivity : (0 : Nat) < 2 ^ 24)]
  rw [Nat.div_eq_of_lt hX, Nat.zero_add]
  rw [show (0xFF : Nat) = 2 ^ 8 - 1 from by norm_num,
    Nat.and_pow_two_sub_one_eq_mod, Nat.mod_eq_of_lt h3]

theorem msgx_low24_eq (s : MsgxState) (hb : ∀ i, s.bytes i < 256) :
    msg_word s.bytes (s.asm_words - 1) &&& 0xFFFFFF =
      s.bytes (4 * (s.asm_words - 1)) +
      2 ^ 8 * s.bytes (4 * (s.asm_words - 1) + 1) +
      2 ^ 16 * s.bytes (4 * (s.asm_words - 1) + 2) := by
  unfold msg_word
  have h0 := hb (4 * (s.asm_words - 1))
  have h1 := hb (4 * (s.asm_words - 1) + 1)
  have h2 := hb (4 * (s.asm_words - 1) + 2)
  have hX : s.bytes (4 * (s.asm_words - 1)) +
      2 ^ 8 * s.bytes (4 * (s.asm_words - 1) + 1) +
      2 ^ 16 * s.bytes (4 * (s.asm_words - 1) + 2) < 2 ^ 24 := by omega
  rw [show (0xFFFFFF : Nat) = 2 ^ 24 - 1 from by norm_num,
    Nat.and_pow_two_sub_one_eq_mod, Nat.add_mul_mod_self_left,
    Nat.mod_eq_of_lt hX]

theorem low24_lt_iff (b0 b1 b2 m : Nat) (h0 : b0 < 256) (h1 : b1 < 256)
    (h2 : b2 < 256) (hm : m ≤ 3) :
    (b0 + 2 ^ 8 * b1 + 2 ^ 16 * b2 < 2 ^ (m * 8)) ↔
      ((m ≤ 0 → b0 = 0) ∧ (m ≤ 1 → b1 = 0) ∧ (m ≤ 2 → b2 = 0)) := by
  interval_cases m <;> simp <;> omega

/-- The C4 property for one MSGX state: acceptance is equivalent to the size
byte lying in [4*words - 4, 4*words - 1] with zero padding beyond it; on
acceptance the message is trimmed to size bytes with no diagnostic; on
rejection the state is unchanged and a hex dump is among the diagnostics. -/
def msgxSpec (s : MsgxState) : Prop :=
  ((prepare_message_msgx s).1 = true ↔
    (s.bytes (4 * s.asm_words - 1) ≤ 4 * s.asm_words - 1 ∧
     4 * s.asm_words - 4 ≤ s.bytes (4 * s.asm_words - 1) ∧
     (∀ i, s.bytes (4 * s.asm_words - 1) ≤ i → i < 4 * s.asm_words - 1 →
       s.bytes i = 0))) ∧
  ((prepare_message_msgx s).1 = true →
    (prepare_message_msgx s).2.1.asm_size = s.bytes (4 * s.asm_words - 1) ∧
    (∀ i, i < s.bytes (4 * s.asm_words - 1) →
      (prepare_message_msgx s).2.1.bytes i = s.bytes i) ∧
    (∀ i, s.bytes (4 * s.asm_words - 1) ≤ i →
      i ≤ s.bytes (4 * s.asm_words - 1) + 3 →
      (prepare_message_msgx s).2.1.bytes i = 0) ∧
    (prepare_message_msgx s).2.2 = []) ∧
  ((prepare_message_msgx s).1 = false →
    (prepare_message_msgx s).2.1 = s ∧
    MsgxDiag.hexDump ∈ (prepare_message_msgx s).2.2)

/-- C4: for a MSGX message of words >= 1 data words (asm_size = 4*words on
entry), with size the last byte of the last data word: the message is
accepted iff size <= 4*words - 1, size >= 4*words - 4, and every padding
byte of the last word beyond size is zero; on acceptance the length is
trimmed to exactly size bytes and the four bytes past the end are zeroed,
with no diagnostic; on any violation the message is rejected, the state is
unchanged, and a diagnostic including a hex dump is emitted. -/
theorem C4_msgx_validation (s : MsgxState)
    (hw : 1 ≤ s.asm_words) (hsz : s.asm_size = 4 * s.asm_words)
    (hb : ∀ i, s.bytes i < 256) :
    msgxSpec s := by
  unfold msgxSpec
  have hsq : msgx_size s = s.bytes (4 * s.asm_words - 1) := by
    rw [msgx_size_eq s hb]
    congr 1
    omega
  have hbyte := hb (4 * s.asm_words - 1)
  have hns : ¬ s.asm_size = 0 := by omega
  unfold prepare_message_msgx
  rw [if_neg hns]
  by_cases c1 : msgx_size s > s.asm_size - 1
  · rw [if_pos c1]
    refine ⟨?_, ?_, ?_⟩
    · constructor
      · intro h
        exact absurd h (by simp)
      · rintro ⟨r1, r2, r3⟩
        exfalso
        omega
    · intro h
      exact absurd h (by simp)
    · intro _
      exact ⟨rfl, by simp⟩
  · rw [if_neg c1]
    by_cases c2 : msgx_size s < s.asm_size - 4
    · rw [if_pos c2]
      refine ⟨?_, ?_, ?_⟩
      · constructor
        · intro h
          exact absurd h (by simp)
        · rintro ⟨r1, r2, r3⟩
          exfalso
          omega
      · intro h
        exact absurd h (by simp)
      · intro _
        exact ⟨rfl, by simp⟩
    · rw [if_neg c2]
      have h0 := hb (4 * (s.asm_words - 1))
      have h1 := hb (4 * (s.asm_words - 1) + 1)
      have h2 := hb (4 * (s.asm_words - 1) + 2)
      have hpad : ((msg_word s.bytes (s.asm_words - 1) &&& 0xFFFFFF) >>>
          ((msgx_size s &&& 3) * 8) = 0) ↔
          (∀ i, s.bytes (4 * s.asm_words - 1) ≤ i → i < 4 * s.asm_words - 1 →
            s.bytes i = 0) := by
        rw [msgx_low24_eq s hb, Nat.shiftRight_eq_div_pow,
          show msgx_size s &&& 3 = msgx_size s % 4 from by
            rw [show (3 : Nat) = 2 ^ 2 - 1 from by norm_num,
              Nat.and_pow_two_sub_one_eq_mod],
          Nat.div_eq_zero_iff (by positivity)]
        rw [low24_lt_iff _ _ _ _ h0 h1 h2 (by omega)]
        constructor
        · rintro ⟨p0, p1, p2⟩ i hi1 hi2
          have hi3 : i = 4 * (s.asm_words - 1) ∨ i = 4 * (s.asm_words - 1) + 1 ∨
              i = 4 * (s.asm_words - 1) + 2 := by omega
          rcases hi3 with rfl | rfl | rfl
          · exact p0 (by omega)
          · exact p1 (by omega)
          · exact p2 (by omega)
        · intro hall
          refine ⟨?_, ?_, ?_⟩
          · intro hm
            exact hall _ (by omega) (by omega)
          · intro hm
            exact hall _ (by omega) (by omega)
          · intro hm
            exact hall _ (by omega) (by omega)
      by_cases c3 : (msg_word s.bytes (s.asm_words - 1) &&& 0xFFFFFF) >>>
          ((msgx_size s &&& 3) * 8) ≠ 0
      · rw [if_pos c3]
        refine ⟨?_, ?_, ?_⟩
        · constructor
          · intro h
            exact absurd h (by simp)
          · rintro ⟨r1, r2, r3⟩
            exact absurd (hpad.mpr r3) c3
        · intro h
          exact absurd h (by simp)
        · intro _
          exact ⟨rfl, by simp⟩
      · rw [if_neg c3]
        push_neg at c3
        refine ⟨?_, ?_, ?_⟩
        · constructor
          · intro _
            exact ⟨by omega, by omega, hpad.mp c3⟩
          · intro _
            rfl
        · intro _
          refine ⟨hsq, ?_, ?_, rfl⟩
          · intro i hi
            have hnin : ¬ (msgx_size s ≤ i ∧ i ≤ msgx_size s + 3) := by omega
            simp [hnin]
          · intro i hi1 hi2
            have hin : msgx_size s ≤ i ∧ i ≤ msgx_size s + 3 := by omega
            simp [hin]
        · intro h
          exact absurd h (by simp)

/-- A concrete two-word MSGX message: five payload bytes of value 65, two
zero padding bytes, and size byte 5 in the last position. -/
def c4State : MsgxState :=
  ⟨2, 8, fun i => if i = 7 then 5 else if i < 5 then 65 else 0⟩

/-- C4 witness: the MSGX validation property applied to the concrete
two-word message, which is accepted and trimmed to 5 bytes. -/
theorem C4_msgx_validation_witness :
    (1 ≤ c4State.asm_words ∧ c4State.asm_size = 4 * c4State.asm_words ∧
      (∀ i, c4State.bytes i < 256)) ∧
    ((prepare_message_msgx c4State).1 = true ∧
      (prepare_message_msgx c4State).2.1.asm_size = 5) ∧
    msgxSpec c4State :=
  ⟨⟨by decide, by decide, by
      intro i
      show (if i = 7 then 5 else if i < 5 then 65 else 0) < 256
      split_ifs <;> omega⟩,
    ⟨by decide, by decide⟩,
    C4_msgx_validation c4State (by decide) (by decide) (by
      intro i
      show (if i = 7 then 5 else if i < 5 then 65 else 0) < 256
      split_ifs <;> omega)⟩

/-! ## Decode-error capture during one message
(print_helper.c save_decoding_error and print_decoding_errors;
vcd.h print_message slot loop)

The global error state: total_errors and the per-code counter array, the
per-message ring error_log with its counter msg_error_counter, and
error_value_no (index of the value slot being processed).  errors.h is not
among the sources; main.c static_asserts pin FIRST_ERROR = 100 and
ERR_PARSE_UNKNOWN = 200. -/

/-- FIRST_ERROR (errors.h; static_assert in main.c). -/
def FIRST_ERROR : Nat := 100

/-- ERR_PARSE_UNKNOWN (errors.h; static_assert in main.c). -/
def ERR_PARSE_UNKNOWN : Nat := 200

/-- MAX_ERRORS_IN_SINGLE_MESSAGE (main.h). -/
def MAX_ERRORS_IN_SINGLE_MESSAGE : Nat := 10

/-- Modelled from the spec: the errors.h enum is not among the sources, so
the exact value of ERR_DECODE_UNKNOWN_ERROR is unknown; it is some fixed
code inside the decode band accepted by save_decoding_error
(FIRST_ERROR <= code < ERR_PARSE_UNKNOWN), and no claim depends on which. -/
def ERR_DECODE_UNKNOWN_ERROR : Nat := 199

structure ErrEntry where
  error_number : Nat
  value_number : Nat
  data1 : Nat
  data2 : Nat
  fmt_text : String
  deriving DecidableEq

structure ErrState where
  total_errors : Nat
  error_counter : Nat → Nat
  msg_error_counter : Nat
  error_log : Nat → ErrEntry
  error_value_no : Nat

/-- The code normalization at the top of save_decoding_error: out-of-band
codes are replaced by ERR_DECODE_UNKNOWN_ERROR. -/
def normalize_err (err_no : Nat) : Nat :=
  if err_no < FIRST_ERROR ∨ ERR_PARSE_UNKNOWN ≤ err_no then
    ERR_DECODE_UNKNOWN_ERROR
  else err_no

/-- save_decoding_error (print_helper.c): always counts the error globally
and per code; stores it in the per-message ring only while fewer than
MAX_ERRORS_IN_SINGLE_MESSAGE errors have been stored. -/
def save_decoding_error (err_no data1 data2 : Nat) (fmt_text : String)
    (s : ErrState) : ErrState :=
  let e := normalize_err err_no
  let s1 := { s with
    total_errors := s.total_errors + 1,
    error_counter := fun c => if c = e then s.error_counter c + 1
      else s.error_counter c }
  if MAX_ERRORS_IN_SINGLE_MESSAGE ≤ s1.msg_error_counter then s1
  else
    { s1 with
      error_log := fun i => if i = s1.msg_error_counter then
          ⟨e, s1.error_value_no, data1, data2, fmt_text⟩
        else s1.error_log i,
      msg_error_counter := s1.msg_error_counter + 1 }

/-- One error raised while decoding a value slot: the arguments the decoder
passes to save_decoding_error. -/
structure RaisedErr where
  err_no : Nat
  data1 : Nat
  data2 : Nat
  fmt_text : String
  deriving DecidableEq

/-- Default used only for out-of-range list reads. -/
def dummyRaised : RaisedErr := ⟨0, 0, 0, ""⟩

/-- Folding the errors raised by one slot through save_decoding_error. -/
def save_list (es : List RaisedErr) (s : ErrState) : ErrState :=
  es.foldl
    (fun st e => save_decoding_error e.err_no e.data1 e.data2 e.fmt_text st) s

/-- One slot of the print_message loop, abstracted by what it contributes to
the error state: whether it is a counted (non-PLAIN_TEXT) slot, which bumps
error_value_no, and the errors its processing raises in order. -/
def run_slot (s : ErrState) (sl : Bool × List RaisedErr) : ErrState :=
  let s1 := if sl.1 then { s with error_value_no := s.error_value_no + 1 }
    else s
  save_list sl.2 s1

/-- The while loop of print_message over the value slots of one message:
every slot is processed, errors never abort the loop. -/
def process_slots (slots : List (Bool × List RaisedErr)) (s : ErrState) :
    ErrState :=
  slots.foldl run_slot s

/-- print_decoding_errors / print_decoding_errors_to_file (print_helper.c):
after the slot loop, the stored errors (clamped to the ring capacity) are
emitted in order; nothing is emitted when no error was recorded. -/
def print_decoding_errors (s : ErrState) : List ErrEntry :=
  if s.msg_error_counter ≠ 0 then
    (List.range (min s.msg_error_counter MAX_ERRORS_IN_SINGLE_MESSAGE)).map
      s.error_log
  else []

/-- The errors raised by a list of slots, each paired with the
error_value_no in force while it was raised (v is the counter value before
the first slot). -/
def flat_errs (v : Nat) : List (Bool × List RaisedErr) → List (Nat × RaisedErr)
  | [] => []
  | sl :: rest =>
    (sl.2.map fun e => (if sl.1 then v + 1 else v, e)) ++
      flat_errs (if sl.1 then v + 1 else v) rest

/-- The ring entry that storing a raised error produces. -/
def entry_of (p : Nat × RaisedErr) : ErrEntry :=
  ⟨normalize_err p.2.err_no, p.1, p.2.data1, p.2.data2, p.2.fmt_text⟩

theorem save_decoding_error_total (n d1 d2 : Nat) (t : String) (s : ErrState) :
    (save_decoding_error n d1 d2 t s).total_errors = s.total_errors + 1 := by
  simp only [save_decoding_error]
  split <;> rfl

theorem save_decoding_error_counter (n d1 d2 : Nat) (t : String) (s : ErrState)
    (c : Nat) :
    (save_decoding_error n d1 d2 t s).error_counter c =
      s.error_counter c + (if normalize_err n = c then 1 else 0) := by
  simp only [save_decoding_error]
  split <;>
  · by_cases hc : c = normalize_err n
    · simp [hc]
    · simp [hc, Ne.symm hc]

theorem save_decoding_error_cnt (n d1 d2 : Nat) (t : String) (s : ErrState) :
    (save_decoding_error n d1 d2 t s).msg_error_counter =
      if s.msg_error_counter < MAX_ERRORS_IN_SINGLE_MESSAGE then
        s.msg_error_counter + 1
      else s.msg_error_counter := by
  simp only [save_decoding_error]
  split
  · rename_i h
    rw [if_neg (by omega)]
  · rename_i h
    rw [if_pos (by omega)]

theorem save_decoding_error_store (n d1 d2 : Nat) (t : String) (s : ErrState)
    (h : s.msg_error_counter < MAX_ERRORS_IN_SINGLE_MESSAGE) :
    (save_decoding_error n d1 d2 t s).error_log s.msg_error_counter =
      ⟨normalize_err n, s.error_value_no, d1, d2, t⟩ := by
  simp only [save_decoding_error]
  rw [if_neg (by omega)]
  simp

theorem save_decoding_error_log_other (n d1 d2 : Nat) (t : String)
    (s : ErrState) (i : Nat) (h : i ≠ s.msg_error_counter) :
    (save_decoding_error n d1 d2 t s).error_log i = s.error_log i := by
  simp only [save_decoding_error]
  split
  · rfl
  · simp [h]

theorem save_decoding_error_value_no (n d1 d2 : Nat) (t : String)
    (s : ErrState) :
    (save_decoding_error n d1 d2 t s).error_value_no = s.error_value_no := by
  simp only [save_decoding_error]
  split <;> rfl

theorem save_decoding_error_log_ge (n d1 d2 : Nat) (t : String) (s : ErrState)
    (h : MAX_ERRORS_IN_SINGLE_MESSAGE ≤ s.msg_error_counter) :
    (save_decoding_error n d1 d2 t s).error_log = s.error_log := by
  simp only [save_decoding_error]
  rw [if_pos h]

theorem getD_map_pair (w : Nat) (l : List RaisedErr) (i : Nat)
    (h : i < l.length) :
    (l.map fun e => (w, e)).getD i (0, dummyRaised) =
      (w, l.getD i dummyRaised) := by
  induction l generalizing i with
  | nil => simp at h
  | cons a l ih =>
    cases i with
    | zero => rfl
    | succ j =>
      simp only [List.map_cons, List.getD_cons_succ]
      exact ih j (by simpa using h)

/-- Folding one slot's error list: all errors are counted globally and per
code; the ring gains the first errors while below capacity (each stored with
the current value number); entries below the prior counter or at or past the
capacity are untouched; the value counter is unchanged. -/
theorem save_list_spec (es : List RaisedErr) (s : ErrState) :
    (save_list es s).total_errors = s.total_errors + es.length ∧
    (∀ c, (save_list es s).error_counter c = s.error_counter c +
      es.countP (fun e => normalize_err e.err_no == c)) ∧
    ((save_list es s).msg_error_counter =
      if s.msg_error_counter < MAX_ERRORS_IN_SINGLE_MESSAGE then
        min (s.msg_error_counter + es.length) MAX_ERRORS_IN_SINGLE_MESSAGE
      else s.msg_error_counter) ∧
    (∀ i, i < es.length →
      s.msg_error_counter + i < MAX_ERRORS_IN_SINGLE_MESSAGE →
      (save_list es s).error_log (s.msg_error_counter + i) =
        ⟨normalize_err (es.getD i dummyRaised).err_no, s.error_value_no,
         (es.getD i dummyRaised).data1, (es.getD i dummyRaised).data2,
         (es.getD i dummyRaised).fmt_text⟩) ∧
    (∀ i, i < s.msg_error_counter ∨ MAX_ERRORS_IN_SINGLE_MESSAGE ≤ i →
      (save_list es s).error_log i = s.error_log i) ∧
    (save_list es s).error_value_no = s.error_value_no := by
  induction es generalizing s with
  | nil =>
    refine ⟨rfl, fun c => by simp [save_list], ?_, ?_, fun i _ => rfl, rfl⟩
    · simp only [save_list, List.foldl_nil, List.length_nil, Nat.add_zero]
      split <;> omega
    · intro i h
      simp at h
  | cons e es ih =>
    have hstep : save_list (e :: es) s =
        save_list es (save_decoding_error e.err_no e.data1 e.data2 e.fmt_text s) :=
      rfl
    obtain ⟨ih1, ih2, ih3, ih4, ih5, ih6⟩ :=
      ih (save_decoding_error e.err_no e.data1 e.data2 e.fmt_text s)
    have hcnt := save_decoding_error_cnt e.err_no e.data1 e.data2 e.fmt_text s
    have hvn := save_decoding_error_value_no e.err_no e.data1 e.data2 e.fmt_text s
    have htot := save_decoding_error_total e.err_no e.data1 e.data2 e.fmt_text s
    refine ⟨?_, ?_, ?_, ?_, ?_, ?_⟩
    · rw [hstep, ih1, htot]
      simp [Nat.add_assoc, Nat.add_comm 1]
    · intro c
      rw [hstep, ih2 c,
        save_decoding_error_counter e.err_no e.data1 e.data2 e.fmt_text s c,
        List.countP_cons]
      by_cases hc : normalize_err e.err_no = c
      · simp [hc]
        omega
      · simp [hc]
    · rw [hstep, ih3, hcnt]
      have hlen : (e :: es).length = es.length + 1 := rfl
      rw [hlen]
      split_ifs <;> omega
    · intro i hi hicap
      rw [hstep]
      cases i with
      | zero =>
        have hlt : s.msg_error_counter < MAX_ERRORS_IN_SINGLE_MESSAGE := by
          omega
        rw [Nat.add_zero]
        rw [ih5 s.msg_error_counter (by rw [hcnt, if_pos hlt]; omega)]
        rw [save_decoding_error_store e.err_no e.data1 e.data2 e.fmt_text s hlt]
        rfl
      | succ j =>
        have hlt : s.msg_error_counter < MAX_ERRORS_IN_SINGLE_MESSAGE := by
          omega
        have hidx : s.msg_error_counter + (j + 1) =
            (save_decoding_error e.err_no e.data1 e.data2 e.fmt_text
              s).msg_error_counter + j := by
          rw [hcnt, if_pos hlt]
          omega
        rw [hidx, ih4 j (by simpa using hi) (by rw [hcnt, if_pos hlt]; omega),
          hvn]
        rfl
    · intro i hi
      rw [hstep]
      rcases hi with hi | hi
      · rw [ih5 i (Or.inl (by rw [hcnt]; split_ifs <;> omega)),
          save_decoding_error_log_other e.err_no e.data1 e.data2 e.fmt_text s i
            (by omega)]
      · rw [ih5 i (Or.inr hi)]
        by_cases hge : MAX_ERRORS_IN_SINGLE_MESSAGE ≤ s.msg_error_counter
        · rw [save_decoding_error_log_ge e.err_no e.data1 e.data2 e.fmt_text s
            hge]
        · rw [save_decoding_error_log_other e.err_no e.data1 e.data2 e.fmt_text
            s i (by omega)]
    · rw [hstep, ih6, hvn]

/-- The C5 bookkeeping invariant for running a list of slots from a state:
all raised errors are counted in total and per code, the ring grows by the
first errors up to capacity (stored as entry_of with their value numbers),
and ring entries below the prior counter or at or past capacity are
untouched. -/
def slotsSpec (slots : List (Bool × List RaisedErr)) (s : ErrState) : Prop :=
  (process_slots slots s).total_errors =
    s.total_errors + (flat_errs s.error_value_no slots).length ∧
  (∀ c, (process_slots slots s).error_counter c = s.error_counter c +
    (flat_errs s.error_value_no slots).countP
      (fun p => normalize_err p.2.err_no == c)) ∧
  ((process_slots slots s).msg_error_counter =
    if s.msg_error_counter < MAX_ERRORS_IN_SINGLE_MESSAGE then
      min (s.msg_error_counter + (flat_errs s.error_value_no slots).length)
        MAX_ERRORS_IN_SINGLE_MESSAGE
    else s.msg_error_counter) ∧
  (∀ i, i < (flat_errs s.error_value_no slots).length →
    s.msg_error_counter + i < MAX_ERRORS_IN_SINGLE_MESSAGE →
    (process_slots slots s).error_log (s.msg_error_counter + i) =
      entry_of ((flat_errs s.error_value_no slots).getD i (0, dummyRaised))) ∧
  (∀ i, i < s.msg_error_counter ∨ MAX_ERRORS_IN_SINGLE_MESSAGE ≤ i →
    (process_slots slots s).error_log i = s.error_log i)

theorem process_slots_spec (slots : List (Bool × List RaisedErr)) :
    ∀ s : ErrState, slotsSpec slots s := by
  induction slots with
  | nil =>
    intro s
    refine ⟨rfl, fun c => by simp [process_slots, flat_errs], ?_, ?_, ?_⟩
    · simp only [process_slots, List.foldl_nil, flat_errs, List.length_nil,
        Nat.add_zero]
      split <;> omega
    · intro i h
      simp [flat_errs] at h
    · intro i _
      rfl
  | cons sl rest ih =>
    intro s
    obtain ⟨b, es2⟩ := sl
    have hrun : process_slots ((b, es2) :: rest) s =
        process_slots rest (save_list es2
          { s with error_value_no :=
              if b then s.error_value_no + 1 else s.error_value_no }) := by
      cases b <;> rfl
    have hflat : flat_errs s.error_value_no ((b, es2) :: rest) =
        (es2.map fun e =>
          ((if b then s.error_value_no + 1 else s.error_value_no), e)) ++
        flat_errs (if b then s.error_value_no + 1 else s.error_value_no)
          rest := by
      cases b <;> rfl
    obtain ⟨L1, L2, L3, L4, L5, L6⟩ := save_list_spec es2
      { s with error_value_no :=
          if b then s.error_value_no + 1 else s.error_value_no }
    obtain ⟨R1, R2, R3, R4, R5⟩ := ih (save_list es2
      { s with error_value_no :=
          if b then s.error_value_no + 1 else s.error_value_no })
    dsimp only at L1 L2 L3 L4 L5 L6
    simp only [L6] at R1 R2 R3 R4
    refine ⟨?_, ?_, ?_, ?_, ?_⟩
    · rw [hrun, hflat, R1, L1]
      simp [List.length_append]
      omega
    · intro c
      rw [hrun, hflat, R2 c, L2 c]
      simp only [List.countP_append, List.countP_map]
      have hcomp : ((fun p : Nat × RaisedErr => normalize_err p.2.err_no == c) ∘
          fun e => ((if b then s.error_value_no + 1 else s.error_value_no), e))
          = fun e : RaisedErr => normalize_err e.err_no == c := rfl
      rw [hcomp]
      omega
    · rw [hrun, hflat, R3, L3]
      simp only [List.length_append, List.length_map]
      split_ifs <;> omega
    · intro i hi hicap
      rw [hrun, hflat] at *
      simp only [List.length_append, List.length_map] at hi
      by_cases hfirst : i < es2.length
      · rw [List.getD_append _ _ _ _ (by simpa using hfirst)]
        rw [R5 (s.msg_error_counter + i) (Or.inl (by rw [L3]; split_ifs <;> omega))]
        rw [L4 i (by simpa using hfirst) (by omega)]
        rw [getD_map_pair _ _ _ hfirst]
        rfl
      · push_neg at hfirst
        rw [List.getD_append_right _ _ _ _ (by simpa using hfirst)]
        have hidx : s.msg_error_counter + i =
            (save_list es2 { s with error_value_no :=
              if b then s.error_value_no + 1 else s.error_value_no
            }).msg_error_counter + (i - es2.length) := by
          rw [L3]
          split_ifs <;> omega
        rw [hidx, R4 (i - es2.length) (by omega) (by rw [← hidx]; omega)]
        simp
    · intro i hi
      rw [hrun]
      have hcond : i < (save_list es2 { s with error_value_no :=
          if b then s.error_value_no + 1 else s.error_value_no
        }).msg_error_counter ∨ MAX_ERRORS_IN_SINGLE_MESSAGE ≤ i := by
        rcases hi with hi | hi
        · left
          rw [L3]
          split_ifs <;> omega
        · right
          exact hi
      rw [R5 i hcond]
      exact L5 i hi

/-- C5: running every slot of one message from the per-message reset state
(msg_error_counter = 0): no error aborts the loop (process_slots folds every
slot); each raised error increments the global total and the per-code
counter of its normalized code; the first MAX_ERRORS_IN_SINGLE_MESSAGE
errors are stored in the ring with code, the two data values, the value
number and the format-string snippet; errors beyond that bound are counted
but not stored; ring slots at or past the bound keep their old contents; and
the emission performed after the loop prints exactly the stored entries in
order. -/
theorem C5_error_capture (slots : List (Bool × List RaisedErr)) (s : ErrState)
    (hreset : s.msg_error_counter = 0) :
    (process_slots slots s).total_errors =
      s.total_errors + (flat_errs s.error_value_no slots).length ∧
    (∀ c, (process_slots slots s).error_counter c = s.error_counter c +
      (flat_errs s.error_value_no slots).countP
        (fun p => normalize_err p.2.err_no == c)) ∧
    (process_slots slots s).msg_error_counter =
      min (flat_errs s.error_value_no slots).length
        MAX_ERRORS_IN_SINGLE_MESSAGE ∧
    (∀ i, i < min (flat_errs s.error_value_no slots).length
        MAX_ERRORS_IN_SINGLE_MESSAGE →
      (process_slots slots s).error_log i =
        entry_of ((flat_errs s.error_value_no slots).getD i
          (0, dummyRaised))) ∧
    (∀ i, MAX_ERRORS_IN_SINGLE_MESSAGE ≤ i →
      (process_slots slots s).error_log i = s.error_log i) ∧
    print_decoding_errors (process_slots slots s) =
      (List.range (min (flat_errs s.error_value_no slots).length
        MAX_ERRORS_IN_SINGLE_MESSAGE)).map
        (fun i => entry_of ((flat_errs s.error_value_no slots).getD i
          (0, dummyRaised))) := by
  obtain ⟨P1, P2, P3, P4, P5⟩ := process_slots_spec slots s
  rw [hreset] at P3 P4 P5
  rw [if_pos (by decide : 0 < MAX_ERRORS_IN_SINGLE_MESSAGE)] at P3
  rw [Nat.zero_add] at P3
  have hstore : ∀ i, i < min (flat_errs s.error_value_no slots).length
      MAX_ERRORS_IN_SINGLE_MESSAGE →
      (process_slots slots s).error_log i =
        entry_of ((flat_errs s.error_value_no slots).getD i
          (0, dummyRaised)) := by
    intro i hi
    have := P4 i (by omega) (by omega)
    simpa using this
  refine ⟨P1, P2, P3, hstore, ?_, ?_⟩
  · intro i hi
    exact P5 i (Or.inr hi)
  · unfold print_decoding_errors
    rw [P3]
    by_cases hlen : min (flat_errs s.error_value_no slots).length
        MAX_ERRORS_IN_SINGLE_MESSAGE = 0
    · rw [if_neg (by omega)]
      rw [hlen]
      rfl
    · rw [if_pos (by omega)]
      have hminmin : min (min (flat_errs s.error_value_no slots).length
          MAX_ERRORS_IN_SINGLE_MESSAGE) MAX_ERRORS_IN_SINGLE_MESSAGE =
          min (flat_errs s.error_value_no slots).length
            MAX_ERRORS_IN_SINGLE_MESSAGE := by omega
      rw [hminmin]
      apply List.map_congr_left
      intro i hi
      rw [List.mem_range] at hi
      exact hstore i hi

/-- A fresh error state: no errors counted, empty ring. -/
def errS0 : ErrState := ⟨0, fun _ => 0, 0, fun _ => ⟨0, 0, 0, 0, ""⟩, 0⟩

/-- Three slots of one message: the first raises an in-band error 150, the
second raises none, the third raises an out-of-band error 250 (normalized to
ERR_DECODE_UNKNOWN_ERROR) and an in-band error 120. -/
def c5Slots : List (Bool × List RaisedErr) :=
  [(true, [⟨150, 1, 2, "a"⟩]), (true, []),
   (true, [⟨250, 3, 4, "b"⟩, ⟨120, 5, 6, "c"⟩])]

/-- C5 witness: the error-capture property applied to a concrete slot list;
the three errors are all counted (code 250 under the unknown-error code),
stored with their value numbers 1, 3, 3, and emitted after the loop. -/
theorem C5_error_capture_witness :
    errS0.msg_error_counter = 0 ∧
    ((process_slots c5Slots errS0).total_errors = 3 ∧
      (process_slots c5Slots errS0).error_counter 150 = 1 ∧
      (process_slots c5Slots errS0).error_counter ERR_DECODE_UNKNOWN_ERROR = 1 ∧
      (process_slots c5Slots errS0).error_counter 120 = 1 ∧
      print_decoding_errors (process_slots c5Slots errS0) =
        [⟨150, 1, 1, 2, "a"⟩, ⟨ERR_DECODE_UNKNOWN_ERROR, 3, 3, 4, "b"⟩,
         ⟨120, 3, 5, 6, "c"⟩]) ∧
    ((process_slots c5Slots errS0).total_errors =
      errS0.total_errors + (flat_errs errS0.error_value_no c5Slots).length ∧
    (∀ c, (process_slots c5Slots errS0).error_counter c =
      errS0.error_counter c +
      (flat_errs errS0.error_value_no c5Slots).countP
        (fun p => normalize_err p.2.err_no == c)) ∧
    (process_slots c5Slots errS0).msg_error_counter =
      min (flat_errs errS0.error_value_no c5Slots).length
        MAX_ERRORS_IN_SINGLE_MESSAGE ∧
    (∀ i, i < min (flat_errs errS0.error_value_no c5Slots).length
        MAX_ERRORS_IN_SINGLE_MESSAGE →
      (process_slots c5Slots errS0).error_log i =
        entry_of ((flat_errs errS0.error_value_no c5Slots).getD i
          (0, dummyRaised))) ∧
    (∀ i, MAX_ERRORS_IN_SINGLE_MESSAGE ≤ i →
      (process_slots c5Slots errS0).error_log i = errS0.error_log i) ∧
    print_decoding_errors (process_slots c5Slots errS0) =
      (List.range (min (flat_errs errS0.error_value_no c5Slots).length
        MAX_ERRORS_IN_SINGLE_MESSAGE)).map
        (fun i => entry_of ((flat_errs errS0.error_value_no c5Slots).getD i
          (0, dummyRaised)))) :=
  ⟨rfl, ⟨by decide, by decide, by decide, by decide, by decide⟩,
    C5_error_capture c5Slots errS0 rfl⟩

/-! ## Indexed-text selection (vcd.h, copy_selected_text)

The indexed-text blob is a concatenation of length-prefixed records
terminated by a zero length byte.  The blob is modelled as a byte function;
encode_blob builds the byte image the IN_FILE / inline-list loader produces
for a list of options. -/

/-- The walk loop of copy_selected_text: starting at record position pos,
advance up to index records, stopping early when the next record has length
byte zero (end of list). -/
def select_pos (bytes : Nat → Nat) : Nat → Nat → Nat
  | 0, pos => pos
  | i + 1, pos =>
    if bytes (pos + 1 + bytes pos) = 0 then pos
    else select_pos bytes i (pos + bytes pos + 1)

/-- copy_selected_text (vcd.h): returns the selected record's payload, or
none for the TXT_UNDEFINED_TEXT fallback (NULL or empty blob, or a zero
length byte at the final position). -/
def copy_selected_text (bytes : Nat → Nat) (index : Nat) : Option (List Nat) :=
  if bytes 0 = 0 then none
  else
    if 0 < bytes (select_pos bytes index 0) then
      some ((List.range (bytes (select_pos bytes index 0))).map
        fun i => bytes (select_pos bytes index 0 + 1 + i))
    else none

/-- The byte image of an indexed-text list: length byte then payload for
each option, then the terminating zero length byte. -/
def encode_blob (opts : List (List Nat)) : List Nat :=
  (opts.map fun o => o.length :: o).join ++ [0]

def blob_bytes (opts : List (List Nat)) : Nat → Nat :=
  fun i => (encode_blob opts).getD i 0

theorem encode_blob_cons (o : List Nat) (rest : List (List Nat)) :
    encode_blob (o :: rest) = (o.length :: o) ++ encode_blob rest := by
  simp [encode_blob]

theorem blob_bytes_zero (o : List Nat) (rest : List (List Nat)) :
    blob_bytes (o :: rest) 0 = o.length := by
  simp [blob_bytes, encode_blob_cons]

theorem blob_bytes_payload (o : List Nat) (rest : List (List Nat)) (i : Nat)
    (h : i < o.length) :
    blob_bytes (o :: rest) (1 + i) = o.getD i 0 := by
  unfold blob_bytes
  rw [encode_blob_cons]
  have h1 : (1 : Nat) + i = i + 1 := by omega
  rw [h1]
  show ((o.length :: o) ++ encode_blob rest).getD (i + 1) 0 = o.getD i 0
  rw [List.getD_append _ _ _ _ (by simp; omega)]
  simp [List.getD_cons_succ]

theorem blob_bytes_shift (o : List Nat) (rest : List (List Nat)) (i : Nat) :
    blob_bytes (o :: rest) (o.length + 1 + i) = blob_bytes rest i := by
  unfold blob_bytes
  rw [encode_blob_cons]
  rw [List.getD_append_right _ _ _ _ (by simp)]
  congr 1
  simp

theorem select_pos_shift (o : List Nat) (rest : List (List Nat)) (i p : Nat) :
    select_pos (blob_bytes (o :: rest)) i (o.length + 1 + p) =
      o.length + 1 + select_pos (blob_bytes rest) i p := by
  induction i generalizing p with
  | zero => rfl
  | succ j ih =>
    unfold select_pos
    rw [blob_bytes_shift]
    have harg : o.length + 1 + p + 1 + blob_bytes rest p =
        o.length + 1 + (p + 1 + blob_bytes rest p) := by omega
    rw [harg, blob_bytes_shift]
    split
    · rfl
    · have hpos : o.length + 1 + p + blob_bytes rest p + 1 =
          o.length + 1 + (p + blob_bytes rest p + 1) := by omega
      rw [hpos, ih]

theorem range_map_getD (l : List Nat) :
    (List.range l.length).map (fun i => l.getD i 0) = l := by
  apply List.ext_getElem
  · simp
  · intro i h1 h2
    simp [List.getD_eq_getElem?_getD, List.getElem?_eq_getElem h2]

theorem copy_selected_text_step (o r : List Nat) (tl : List (List Nat))
    (v : Nat) (ho : 1 ≤ o.length) (hr : 1 ≤ r.length) :
    copy_selected_text (blob_bytes (o :: r :: tl)) (v + 1) =
      copy_selected_text (blob_bytes (r :: tl)) v := by
  have hsel : select_pos (blob_bytes (o :: r :: tl)) (v + 1) 0 =
      o.length + 1 + select_pos (blob_bytes (r :: tl)) v 0 := by
    conv_lhs => unfold select_pos
    rw [blob_bytes_zero]
    have h1 : 0 + 1 + o.length = o.length + 1 + 0 := by omega
    rw [h1, blob_bytes_shift, blob_bytes_zero]
    rw [if_neg (by omega)]
    have h2 : 0 + o.length + 1 = o.length + 1 + 0 := by omega
    rw [h2, select_pos_shift]
  have g1 : ¬ (blob_bytes (o :: r :: tl) 0 = 0) := by
    rw [blob_bytes_zero]
    omega
  have g2 : ¬ (blob_bytes (r :: tl) 0 = 0) := by
    rw [blob_bytes_zero]
    omega
  unfold copy_selected_text
  rw [if_neg g1, if_neg g2, hsel]
  generalize select_pos (blob_bytes (r :: tl)) v 0 = q
  have hmap : ∀ i : Nat, o.length + 1 + q + 1 + i =
      o.length + 1 + (q + 1 + i) := by
    intro i
    omega
  simp only [hmap, blob_bytes_shift]

/-- Selection over an encoded option list returns option min v (n-1): the
v-th option (0-based) for v < n and the last option otherwise. -/
theorem copy_encode_spec (v : Nat) : ∀ opts : List (List Nat),
    1 ≤ opts.length → (∀ o ∈ opts, 1 ≤ o.length) →
    copy_selected_text (blob_bytes opts) v =
      some (opts.getD (min v (opts.length - 1)) []) := by
  induction v with
  | zero =>
    intro opts h1 h2
    obtain ⟨o, rest, rfl⟩ : ∃ o rest, opts = o :: rest := by
      cases opts with
      | nil => simp at h1
      | cons a l => exact ⟨a, l, rfl⟩
    have ho : 1 ≤ o.length := h2 o (by simp)
    have g1 : ¬ (blob_bytes (o :: rest) 0 = 0) := by
      rw [blob_bytes_zero]
      omega
    unfold copy_selected_text
    rw [if_neg g1]
    have hsel : select_pos (blob_bytes (o :: rest)) 0 0 = 0 := rfl
    rw [hsel, blob_bytes_zero, if_pos (by omega)]
    have hmap : ∀ i ∈ List.range o.length,
        blob_bytes (o :: rest) (0 + 1 + i) = o.getD i 0 := by
      intro i hi
      rw [List.mem_range] at hi
      have h3 : 0 + 1 + i = 1 + i := by omega
      rw [h3, blob_bytes_payload o rest i hi]
    rw [List.map_congr_left hmap, range_map_getD]
    simp
  | succ v ih =>
    intro opts h1 h2
    obtain ⟨o, rest, rfl⟩ : ∃ o rest, opts = o :: rest := by
      cases opts with
      | nil => simp at h1
      | cons a l => exact ⟨a, l, rfl⟩
    have ho : 1 ≤ o.length := h2 o (by simp)
    cases rest with
    | nil =>
      have hsel : select_pos (blob_bytes [o]) (v + 1) 0 = 0 := by
        unfold select_pos
        rw [blob_bytes_zero]
        have h0 : 0 + 1 + o.length = o.length + 1 + 0 := by omega
        rw [h0, blob_bytes_shift]
        have hz : blob_bytes [] 0 = 0 := rfl
        rw [if_pos hz]
      have g1 : ¬ (blob_bytes [o] 0 = 0) := by
        rw [blob_bytes_zero]
        omega
      unfold copy_selected_text
      rw [if_neg g1]
      rw [hsel, blob_bytes_zero, if_pos (by omega)]
      have hmap : ∀ i ∈ List.range o.length,
          blob_bytes [o] (0 + 1 + i) = o.getD i 0 := by
        intro i hi
        rw [List.mem_range] at hi
        have h3 : 0 + 1 + i = 1 + i := by omega
        rw [h3, blob_bytes_payload o [] i hi]
      rw [List.map_congr_left hmap, range_map_getD]
      simp
    | cons r tl =>
      have hstep := copy_selected_text_step o r tl v ho (h2 r (by simp))
      rw [hstep, ih (r :: tl) (by simp)
        (fun x hx => h2 x (by simp [hx]))]
      congr 1
      have hmin : min (v + 1) ((o :: r :: tl).length - 1) =
          min v ((r :: tl).length - 1) + 1 := by
        simp
        omega
      rw [hmin, List.getD_cons_succ]

/-- C6: a SELECTED_TEXT slot over an indexed-text list of n >= 2 options
prints the (v+1)-th option for selector v < n and the last option for
v >= n (clamp): the selected payload is option number min v (n-1). -/
theorem C6_selected_text_clamp (opts : List (List Nat)) (v : Nat)
    (hn : 2 ≤ opts.length)
    (hlen : ∀ o ∈ opts, 1 ≤ o.length ∧ o.length ≤ 255) :
    copy_selected_text (blob_bytes opts) v =
      some (opts.getD (min v (opts.length - 1)) []) :=
  copy_encode_spec v opts (by omega) (fun o ho => (hlen o ho).1)

/-- The inline list of the C6 scenario: ok, warn, err (ASCII bytes). -/
def c6Opts : List (List Nat) :=
  [[111, 107], [119, 97, 114, 110], [101, 114, 114]]

/-- C6 witness: over the ok-warn-err list, selector 1 yields warn and
selector 5 clamps to err; the clamp theorem applied at selector 5. -/
theorem C6_selected_text_clamp_witness :
    (2 ≤ c6Opts.length ∧ ∀ o ∈ c6Opts, 1 ≤ o.length ∧ o.length ≤ 255) ∧
    (copy_selected_text (blob_bytes c6Opts) 1 = some [119, 97, 114, 110] ∧
      copy_selected_text (blob_bytes c6Opts) 5 = some [101, 114, 114]) ∧
    copy_selected_text (blob_bytes c6Opts) 5 =
      some (c6Opts.getD (min 5 (c6Opts.length - 1)) []) :=
  ⟨⟨by decide, by decide⟩, ⟨by decide, by decide⟩,
    C6_selected_text_clamp c6Opts 5 (by decide) (by decide)⟩

/-! ## Value scaling (vcd.h, value_scaling)

C doubles are modelled as exact rationals: the claims concern which formula
is applied and which registers are rewritten, not IEEE rounding.  The
(int64_t) cast of a double truncates toward zero; the (uint64_t) cast of a
negative or oversize double is undefined behaviour in C and is modelled here
as clamped truncation reduced mod 2^64. -/

/-- Truncation toward zero (the C double-to-int64 cast). -/
def rat_trunc (q : ℚ) : Int := q.num.tdiv (q.den : Int)

/-- The three views of g_msg.value written by value_scaling. -/
structure ValueRegs where
  data_double : ℚ
  data_i64 : Int
  data_u64 : Nat
  deriving DecidableEq

/-- value_scaling (vcd.h): store the raw value; when the multiplier is
nonzero, replace it by (data + offset) * mult and recompute both integer
views from the scaled double with the +0.5 casts. -/
def value_scaling (offset mult : ℚ) (v : ValueRegs) (data : ℚ) : ValueRegs :=
  let v1 := { v with data_double := data }
  if mult ≠ 0 then
    { data_double := (data + offset) * mult,
      data_i64 := rat_trunc ((data + offset) * mult + 1 / 2),
      data_u64 := (rat_trunc ((data + offset) * mult + 1 / 2)).toNat % 2 ^ 64 }
  else v1

/-- C7: with a nonzero multiplier the printed value is
(raw + offset) * multiplier and both 64-bit integer views are recomputed
from that scaled double; with a zero multiplier the raw value is kept and
the integer views are left unchanged. -/
theorem C7_value_scaling (offset mult : ℚ) (v : ValueRegs) (data : ℚ) :
    (mult ≠ 0 →
      (value_scaling offset mult v data).data_double = (data + offset) * mult ∧
      (value_scaling offset mult v data).data_i64 =
        rat_trunc ((data + offset) * mult + 1 / 2) ∧
      (value_scaling offset mult v data).data_u64 =
        (rat_trunc ((data + offset) * mult + 1 / 2)).toNat % 2 ^ 64) ∧
    (mult = 0 →
      (value_scaling offset mult v data).data_double = data ∧
      (value_scaling offset mult v data).data_i64 = v.data_i64 ∧
      (value_scaling offset mult v data).data_u64 = v.data_u64) := by
  constructor
  · intro h
    unfold value_scaling
    rw [if_pos h]
    exact ⟨rfl, rfl, rfl⟩
  · intro h
    unfold value_scaling
    rw [if_neg (by simp [h])]
    exact ⟨rfl, rfl, rfl⟩

/-- C7 witness: the scaling property applied at offset 3, multiplier 2 and
raw value 5, whose scaled double is 16. -/
theorem C7_value_scaling_witness :
    (value_scaling 3 2 ⟨0, 7, 8⟩ 5).data_double = 16 ∧
    ((2 : ℚ) ≠ 0 →
      (value_scaling 3 2 ⟨0, 7, 8⟩ 5).data_double = (5 + 3) * 2 ∧
      (value_scaling 3 2 ⟨0, 7, 8⟩ 5).data_i64 =
        rat_trunc ((5 + 3) * 2 + 1 / 2) ∧
      (value_scaling 3 2 ⟨0, 7, 8⟩ 5).data_u64 =
        (rat_trunc ((5 + 3) * 2 + 1 / 2)).toNat % 2 ^ 64) ∧
    ((2 : ℚ) = 0 →
      (value_scaling 3 2 ⟨0, 7, 8⟩ 5).data_double = 5 ∧
      (value_scaling 3 2 ⟨0, 7, 8⟩ 5).data_i64 = 7 ∧
      (value_scaling 3 2 ⟨0, 7, 8⟩ 5).data_u64 = 8) :=
  ⟨by norm_num [value_scaling], (C7_value_scaling 3 2 ⟨0, 7, 8⟩ 5).1,
    (C7_value_scaling 3 2 ⟨0, 7, 8⟩ 5).2⟩

/-! ## Memo stores (vcd.h, save_to_memo)

The enum table g_msg.enums[]: each entry carries a name, a kind tag and a
union payload (filter description, file handle, indexed-text pointer, or
memo value).  Writing the memo value overwrites the union payload, which is
modelled as a sum type. -/

/-- extract_bit_sized_value (vcd.h): shift the 64-bit accumulator right and
merge one message bit into bit 63, size times, advancing the uint32_t bit
address (address++ wraps modulo 2^32). -/
def extract_bit_sized_value (message : Nat → Nat) :
    Nat → Nat → Nat → Nat × List Nat
  | 0, _, value => (value, [])
  | size + 1, address, value =>
    ((extract_bit_sized_value message size ((address + 1) % 2 ^ 32)
        (if message (address >>> 3) &&& (1 <<< (address &&& 7)) ≠ 0 then
          (value >>> 1) ||| (1 <<< 63)
        else value >>> 1)).1,
      (address >>> 3) ::
        (extract_bit_sized_value message size ((address + 1) % 2 ^ 32)
          (if message (address >>> 3) &&& (1 <<< (address &&& 7)) ≠ 0 then
            (value >>> 1) ||| (1 <<< 63)
          else value >>> 1)).2)

/-- The byte-aligned do-while loop of extract_value_from_message: read n
bytes from addr upward into the top byte of the accumulator. -/
def extract_bytes (message : Nat → Nat) : Nat → Nat → Nat → Nat × List Nat
  | 0, _, value => (value, [])
  | n + 1, addr, value =>
    ((extract_bytes message n (addr + 1)
        ((value >>> 8) ||| (message addr <<< 56))).1,
      addr :: (extract_bytes message n (addr + 1)
        ((value >>> 8) ||| (message addr <<< 56))).2)

/-- The int64 reinterpretation of a 64-bit pattern. -/
def int64_of_bits (value : Nat) : Int :=
  if value < 2 ^ 63 then (value : Int) else (value : Int) - 2 ^ 64

/-- Modelled from the spec: errors.h is not among the sources; the two
decode-error codes raised by extract_value_from_message are fixed distinct
in-band codes whose exact values no claim depends on. -/
def ERR_DECODE_VALUE_SIZE_TOO_LARGE : Nat := 150

def ERR_DECODE_VALUE_NOT_IN_MESSAGE : Nat := 151

/-- The decoder state touched by extract_value_from_message: the error
state, the assembled message (byte view and byte size), and the two value
registers it writes. -/
structure ExtractState where
  err : ErrState
  asm_size : Nat
  bytes : Nat → Nat
  data_u64 : Nat
  data_i64 : Int

/-- extract_value_from_message (vcd.h): size 0 means the whole message and
returns untouched; a size over 64 records a decoding error and returns
without reading; the range check computes
unsigned end_address = size + address in 32-bit arithmetic (the sum wraps
modulo 2^32, as does the uint32_t product asm_size * 8u) and records a
decoding error only when the wrapped end_address exceeds the wrapped
product; otherwise the value is gathered (by bytes when size and address
are both byte-aligned, else bit by bit) and the unsigned and signed views
are produced by the final shifts (the signed shift is arithmetic, i.e.
floor division). -/
def extract_value_from_message (data_size bit_address : Nat) (fmt_string : String)
    (s : ExtractState) : ExtractState × List Nat :=
  if data_size = 0 then (s, [])
  else if 64 < data_size then
    ({ s with err := (save_decoding_error ERR_DECODE_VALUE_SIZE_TOO_LARGE
        data_size 64 fmt_string s.err) }, [])
  else if (s.asm_size * 8) % 2 ^ 32 < (data_size + bit_address) % 2 ^ 32 then
    ({ s with err := (save_decoding_error ERR_DECODE_VALUE_NOT_IN_MESSAGE
        ((data_size + bit_address) % 2 ^ 32) ((s.asm_size * 8) % 2 ^ 32)
        fmt_string s.err) }, [])
  else
    ({ s with
        data_u64 := (if (data_size ||| bit_address) &&& 7 = 0 then
            extract_bytes s.bytes (data_size >>> 3) (bit_address >>> 3) 0
          else extract_bit_sized_value s.bytes data_size bit_address 0).1 >>>
          (64 - data_size),
        data_i64 := (int64_of_bits (if (data_size ||| bit_address) &&& 7 = 0
          then extract_bytes s.bytes (data_size >>> 3) (bit_address >>> 3) 0
          else extract_bit_sized_value s.bytes data_size bit_address 0).1).fdiv
          (2 ^ (64 - data_size)) },
      (if (data_size ||| bit_address) &&& 7 = 0 then
          extract_bytes s.bytes (data_size >>> 3) (bit_address >>> 3) 0
        else extract_bit_sized_value s.bytes data_size bit_address 0).2)

/-- Extraction state refuting C9: an 8-byte assembled message whose bytes
are all 0xFF, decoded against a value slot with data_size = 64 and
bit_address = 4294967232 = 2^32 - 64. -/
def extC : ExtractState := ⟨errS0, 8, fun _ => 255, 0, 0⟩

/-- C9 counterexample, a bug of the code rather than of the spec: the
antecedent of the claim holds (bit_address + data_size = 2^32 exceeds
8 * asm_size = 64), yet because the source computes
unsigned end_address = size + address in 32-bit arithmetic the sum wraps
to 0, the range check passes, no decoding error is recorded, the
byte-aligned path dereferences the eight bytes at addresses
536870904..536870911 - each far beyond the 8-byte assembled message - and
both value registers are overwritten instead of keeping their
zero-initialized contents. -/
theorem C9_counterexample :
    extC.asm_size * 8 < 64 + 4294967232 ∧
    (extract_value_from_message 64 4294967232 "" extC).1.err.total_errors =
      extC.err.total_errors ∧
    extC.err.total_errors = 0 ∧
    (extract_value_from_message 64 4294967232 "" extC).2 =
      [536870904, 536870905, 536870906, 536870907,
        536870908, 536870909, 536870910, 536870911] ∧
    (∀ a ∈ (extract_value_from_message 64 4294967232 "" extC).2,
      extC.asm_size ≤ a) ∧
    (extract_value_from_message 64 4294967232 "" extC).1.data_u64 =
      2 ^ 64 - 1 ∧
    (extract_value_from_message 64 4294967232 "" extC).1.data_i64 = -1 := by
  refine ⟨by decide, by decide, by decide, by decide, by decide, by decide,
    by decide⟩

end RTEmsg
